import Mathlib

/-!
# Verification of the video upload / classify / sign pipeline

Shallow embedding of `handler_upload_video.go`, `handler_upload_thumbnail.go` and `url.go`.

* `float64` values are modelled exactly: a finite value is the rational number it denotes,
  every arithmetic operation is the exact rational operation followed by IEEE-754
  round-to-nearest-even into binary64 (`F64.round`).
* The handlers are functions from the outcomes of the external calls they make
  (an environment) to the response status and the ordered list of steps they performed;
  deferred calls are appended when the enclosing function returns. External calls are
  opaque: only their success or failure and the values they return are modelled, except
  that `r.ParseMultipartForm(maxMemory)` is recorded with whether it wrote file parts to
  temporary files on disk, which `net/http` does for what exceeds `maxMemory`.
-/

namespace Tubely

/-! ## IEEE-754 binary64, as used by `getVideoAspectRatio` -/

/-- Nearest integer to `t`, ties going to the even neighbour. -/
def roundHalfEven (t : ℚ) : ℤ :=
  let f := ⌊t⌋
  let r := t - f
  if r < 1 / 2 then f
  else if 1 / 2 < r then f + 1
  else if f % 2 = 0 then f else f + 1

/-- A `float64` value. A finite value is represented by the rational it denotes; the two
signed zeros are identified (they compare equal, and the only divisor in this program is
the conversion of an integer, which is never `-0`). -/
inductive F64 where
  | fin (q : ℚ)
  | pinf
  | ninf
  | nan
deriving DecidableEq, Repr

namespace F64

/-- The binary exponent of the unit in the last place used to round `x ≠ 0`:
53 significant bits, with the exponent of subnormals clamped at `-1074`. -/
def ulpExp (x : ℚ) : ℤ := max (Int.log 2 |x| - 52) (-1074)

/-- Round-to-nearest-even of an exact rational into binary64; a result of magnitude
`2^1024` or more overflows to the infinity of the sign of `x`. -/
def round (x : ℚ) : F64 :=
  if x = 0 then fin 0
  else
    let y : ℚ := (roundHalfEven (x / 2 ^ ulpExp x) : ℚ) * 2 ^ ulpExp x
    if (2 : ℚ) ^ (1024 : ℤ) ≤ |y| then (if 0 < x then pinf else ninf) else fin y

/-- Go conversion `float64(n)` of an integer. -/
def ofInt (n : ℤ) : F64 := round n

/-- Go `x + y` on `float64`. -/
def add : F64 → F64 → F64
  | fin a, fin b => round (a + b)
  | nan, _ => nan
  | _, nan => nan
  | pinf, ninf => nan
  | ninf, pinf => nan
  | pinf, _ => pinf
  | _, pinf => pinf
  | ninf, _ => ninf
  | _, ninf => ninf

/-- Go `x - y` on `float64`. -/
def sub : F64 → F64 → F64
  | fin a, fin b => round (a - b)
  | nan, _ => nan
  | _, nan => nan
  | pinf, pinf => nan
  | ninf, ninf => nan
  | pinf, _ => pinf
  | _, ninf => pinf
  | ninf, _ => ninf
  | _, pinf => ninf

/-- Go `x / y` on `float64`. -/
def div : F64 → F64 → F64
  | fin a, fin b =>
    if b = 0 then (if a = 0 then nan else if 0 < a then pinf else ninf)
    else round (a / b)
  | nan, _ => nan
  | _, nan => nan
  | fin _, pinf => fin 0
  | fin _, ninf => fin 0
  | pinf, fin b => if 0 ≤ b then pinf else ninf
  | ninf, fin b => if 0 ≤ b then ninf else pinf
  | pinf, pinf => nan
  | pinf, ninf => nan
  | ninf, pinf => nan
  | ninf, ninf => nan

/-- Go `x < y` on `float64`: false as soon as one side is NaN. -/
def lt : F64 → F64 → Bool
  | fin a, fin b => decide (a < b)
  | ninf, fin _ => true
  | ninf, pinf => true
  | fin _, pinf => true
  | _, _ => false

/-- Go `x > y` on `float64`. -/
def gt (x y : F64) : Bool := lt y x

/-- The rational `c` is a finite binary64 value: an integer of fewer than 54 bits times a
power of two no smaller than `2^-1074`, of magnitude below `2^1024`. -/
def Representable (c : ℚ) : Prop :=
  ∃ m k : ℤ, c = (m : ℚ) * 2 ^ k ∧ |m| < 2 ^ 53 ∧ -1074 ≤ k ∧ |c| < 2 ^ (1024 : ℤ)

/-- The value `a` is `-Inf` or a finite value at most `c`. -/
def Below (a : F64) (c : ℚ) : Prop :=
  match a with
  | fin y => y ≤ c
  | ninf => True
  | _ => False

/-- The value `a` is `+Inf` or a finite value at least `c`. -/
def Above (a : F64) (c : ℚ) : Prop :=
  match a with
  | fin y => c ≤ y
  | pinf => True
  | _ => False

end F64

/-! ## `getVideoAspectRatio` -/

/-- `const ratio16by9 = float64(16) / 9`. -/
def ratio16by9 : F64 := F64.div (F64.ofInt 16) (F64.ofInt 9)

/-- `const ratio9by16 = float64(9) / 16`. -/
def ratio9by16 : F64 := F64.div (F64.ofInt 9) (F64.ofInt 16)

/-- `const toleranceRange = 0.05`: an untyped constant, exact until it meets a `float64`. -/
def toleranceRange : ℚ := 5 / 100

/-- One entry of `output.Streams`. -/
structure Stream where
  Width : ℤ
  Height : ℤ
deriving DecidableEq, Repr

/-- What running `ffprobe` and decoding its standard output produced. -/
inductive Probe where
  | runFailed
  | decodeFailed
  | decoded (streams : List Stream)
deriving DecidableEq, Repr

/-- Lines 162-178 of `getVideoAspectRatio`: the classification of the first stream. -/
def aspectRatioOf (width height : ℤ) : String :=
  let ratio := F64.div (F64.ofInt width) (F64.ofInt height)
  if F64.gt ratio (F64.sub ratio16by9 (F64.round toleranceRange)) &&
      F64.lt ratio (F64.add ratio16by9 (F64.round toleranceRange)) then "16:9"
  else if F64.gt ratio (F64.sub ratio9by16 (F64.round toleranceRange)) &&
      F64.lt ratio (F64.add ratio9by16 (F64.round toleranceRange)) then "9:16"
  else "other"

/-- The function `getVideoAspectRatio`, given the outcome of the probe of `filePath`. -/
def getVideoAspectRatio (probe : Probe) : Except String String :=
  match probe with
  | .runFailed => .error "unable to run command"
  | .decodeFailed => .error "unable to decode JSON"
  | .decoded [] => .error "streams length is 0"
  | .decoded (s :: _) => .ok (aspectRatioOf s.Width s.Height)

/-! ## Strings and paths -/

/-- Go `strings.Split(s, sep)` for a one-character separator, on the characters of `s`:
the pieces between the separators, in order; a string without separator is its only piece. -/
def splitChars (sep : Char) : List Char → List (List Char)
  | [] => [[]]
  | c :: cs =>
    if c = sep then [] :: splitChars sep cs
    else ((c :: (splitChars sep cs).headD []) :: (splitChars sep cs).tail)

/-- Go `strings.Split(s, sep)` for a one-character separator. -/
def stringsSplit (s : String) (sep : Char) : List String :=
  (splitChars sep s.data).map String.mk

/-- Go `filepath.Base` on a Unix path: the last element of the path, after removal of
trailing slashes; `"."` for the empty path and `"/"` for a path made of slashes only. -/
def filepathBase (path : String) : String :=
  if path = "" then "."
  else
    let stripped := (path.data.reverse.dropWhile (fun c => c = '/')).reverse
    let last := (stripped.reverse.takeWhile (fun c => c ≠ '/')).reverse
    if last = [] then "/" else String.mk last

/-! ## Records, configuration and results -/

/-- The fields of `database.Video` the handlers read or write. -/
structure Video where
  ID : String
  UserID : String
  VideoURL : Option String
  ThumbnailURL : Option String
deriving DecidableEq, Repr

/-- The fields of `apiConfig` the handlers read. -/
structure ApiConfig where
  s3Bucket : String
  s3Region : String
  assetsRoot : String
  port : String
deriving DecidableEq, Repr

/-- What a handler does, one constructor per call or check of the source.
`parseMultipartForm tempFiles` is the call `r.ParseMultipartForm(maxMemory)`, with whether
it wrote file parts to temporary files on disk. -/
inductive Step where
  | uuidParse
  | getBearerToken
  | validateJWT
  | getVideo
  | ownerCheck
  | parseMultipartForm (tempFiles : Bool)
  | formFile
  | parseMediaType
  | mediaTypeCheck
  | createTemp (name : Option String)
  | osCreate (path : String)
  | randRead
  | ioCopy
  | seek
  | getVideoAspectRatio (filePath : String)
  | putObject (bucket key contentType : String)
  | updateVideo (video : Video)
  | tempFileClose
  | osRemove (name : String)
  | fileClose
deriving DecidableEq, Repr

/-- A step together with whether it succeeded. -/
structure Event where
  step : Step
  ok : Bool
deriving DecidableEq, Repr

/-- What a handler run produced: the HTTP status, the error message or the JSON body, the
steps performed in order, and the panic that ended the run if there was one. -/
structure Result where
  status : Nat
  message : String
  body : Option Video
  trace : List Event
  panic : Option String
deriving DecidableEq, Repr

/-- Modelled from the spec: `respondWithError` is not among the available sources; as the
spec has it, a failure is reported to the caller as the given HTTP status plus a
human-readable message. `trace` is what the handler did before responding. -/
def respondWithError (trace : List Event) (code : Nat) (msg : String) : Result :=
  { status := code, message := msg, body := none, trace := trace, panic := none }

/-- Modelled from the spec: `respondWithJSON` is not among the available sources; the
response carries the given status and the record as structured data. -/
def respondWithJSON (trace : List Event) (code : Nat) (payload : Video) : Result :=
  { status := code, message := "", body := some payload, trace := trace, panic := none }

/-- A handler that returns without writing a response: `net/http` sends status 200. -/
def respondDefault (trace : List Event) : Result :=
  { status := 200, message := "", body := none, trace := trace, panic := none }

/-- The result `r` of the rest of a function, seen from the whole function: `before` is what
was done before the rest ran, `deferred` the deferred calls that run once it has returned. -/
def Result.wrap (r : Result) (before deferred : List Event) : Result :=
  { r with trace := before ++ r.trace ++ deferred }

/-- The constant `maxMemory = 10 << 20` of both handlers: `r.ParseMultipartForm(maxMemory)`
keeps up to that many bytes of the file parts in memory and stores the remainder on disk in
temporary files. -/
def maxMemory : ℕ := 10 <<< 20

/-- Whether parsing a body whose file parts total `filePartBytes` bytes writes temporary
files: it does as soon as the file parts exceed `maxMemory`. -/
def spillsToDisk (filePartBytes : ℕ) : Bool := decide (maxMemory < filePartBytes)

/-- The outcomes of the calls `handlerUploadVideo` makes outside this repository, and the
size in bytes of the file parts of the request body. -/
structure VideoEnv where
  uuidParse : Option String
  getBearerToken : Option String
  validateJWT : Option String
  getVideo : Option Video
  filePartBytes : ℕ
  parseMultipartForm : Bool
  formFile : Option String
  parseMediaType : Option String
  createTemp : Option String
  ioCopy : Bool
  seek : Bool
  probe : Probe
  putObject : Bool
  updateVideo : Bool
deriving DecidableEq, Repr

/-- Lines 95 and 104-111 of `handlerUploadVideo`: the object key. -/
def s3KeyOf (tempFileName aspectRatio : String) : String :=
  let s3Key := filepathBase tempFileName
  if aspectRatio = "16:9" then "landscape/" ++ s3Key
  else if aspectRatio = "9:16" then "portrait/" ++ s3Key
  else "other/" ++ s3Key

/-- Lines 123-124 of `handlerUploadVideo`: the string stored in `video.VideoURL`. -/
def videoURLOf (cfg : ApiConfig) (s3Key : String) : String :=
  "https://" ++ cfg.s3Bucket ++ ".s3." ++ cfg.s3Region ++ ".amazonaws.com/" ++ s3Key

/-- Lines 84-130 of `handlerUploadVideo`: the body once the temporary file exists and its
removal is deferred. -/
def uploadVideoStaged (cfg : ApiConfig) (env : VideoEnv) (video : Video)
    (mediaType tempName : String) : Result :=
  if env.ioCopy = false then
    respondWithError [⟨.ioCopy, false⟩] 500 "Unable to write to temporary file"
  else if env.seek = false then
    respondWithError [⟨.ioCopy, true⟩, ⟨.seek, false⟩] 500 "Unable to seek to start of file"
  else
    match getVideoAspectRatio env.probe with
    | .error _ =>
      respondWithError [⟨.ioCopy, true⟩, ⟨.seek, true⟩, ⟨.getVideoAspectRatio tempName, false⟩]
        500 "Unable to determine aspect ratio"
    | .ok aspectRatio =>
      let s3Key := s3KeyOf tempName aspectRatio
      let t := [⟨.ioCopy, true⟩, ⟨.seek, true⟩, ⟨.getVideoAspectRatio tempName, true⟩]
      if env.putObject = false then
        respondWithError (t ++ [⟨.putObject cfg.s3Bucket s3Key mediaType, false⟩])
          500 "Unable to write to S3"
      else
        let video' := { video with VideoURL := some (videoURLOf cfg s3Key) }
        let t' := t ++ [⟨.putObject cfg.s3Bucket s3Key mediaType, true⟩]
        if env.updateVideo = false then
          respondWithError (t' ++ [⟨.updateVideo video', false⟩])
            500 "Unable to write to database"
        else respondDefault (t' ++ [⟨.updateVideo video', true⟩])

/-- Lines 65-130 of `handlerUploadVideo`: the body once the form file is open and its
closing is deferred. -/
def uploadVideoFile (cfg : ApiConfig) (env : VideoEnv) (video : Video) : Result :=
  match env.parseMediaType with
  | none => respondWithError [⟨.parseMediaType, false⟩] 400 "Cannot process media type"
  | some mediaType =>
    if mediaType ≠ "video/mp4" then
      respondWithError [⟨.parseMediaType, true⟩, ⟨.mediaTypeCheck, false⟩] 400
        "Unsupported media type. Supported: 'image/jpeg', 'image/png'"
    else
      let t := [⟨.parseMediaType, true⟩, ⟨.mediaTypeCheck, true⟩]
      match env.createTemp with
      | none =>
        respondWithError (t ++ [⟨.createTemp none, false⟩]) 500 "Unable to create temporary file"
      | some tempName =>
        (uploadVideoStaged cfg env video mediaType tempName).wrap
          (t ++ [⟨.createTemp (some tempName), true⟩])
          [⟨.tempFileClose, true⟩, ⟨.osRemove tempName, true⟩]

/-- The handler `handlerUploadVideo`. -/
def handlerUploadVideo (cfg : ApiConfig) (env : VideoEnv) : Result :=
  match env.uuidParse with
  | none => respondWithError [⟨.uuidParse, false⟩] 400 "Invalid ID"
  | some _ =>
  match env.getBearerToken with
  | none =>
    respondWithError [⟨.uuidParse, true⟩, ⟨.getBearerToken, false⟩] 401 "Couldn't find JWT"
  | some _ =>
  match env.validateJWT with
  | none =>
    respondWithError [⟨.uuidParse, true⟩, ⟨.getBearerToken, true⟩, ⟨.validateJWT, false⟩]
      401 "Couldn't validate JWT"
  | some userID =>
  let t := [⟨.uuidParse, true⟩, ⟨.getBearerToken, true⟩, ⟨.validateJWT, true⟩]
  match env.getVideo with
  | none => respondWithError (t ++ [⟨.getVideo, false⟩]) 400 "Unable to fetch video"
  | some video =>
  if video.UserID ≠ userID then
    respondWithError (t ++ [⟨.getVideo, true⟩, ⟨.ownerCheck, false⟩])
      401 "User is not the video owner"
  else
  let t := t ++ [⟨.getVideo, true⟩, ⟨.ownerCheck, true⟩]
  if env.parseMultipartForm = false then
    respondWithError (t ++ [⟨.parseMultipartForm (spillsToDisk env.filePartBytes), false⟩])
      400 "Cannot parse data"
  else
  match env.formFile with
  | none =>
    respondWithError
      (t ++ [⟨.parseMultipartForm (spillsToDisk env.filePartBytes), true⟩, ⟨.formFile, false⟩])
      400 "Unable to parse form file"
  | some _ =>
  (uploadVideoFile cfg env video).wrap
    (t ++ [⟨.parseMultipartForm (spillsToDisk env.filePartBytes), true⟩, ⟨.formFile, true⟩])
    [⟨.fileClose, true⟩]

/-! ## `handlerUploadThumbnail` -/

/-- The outcomes of the calls `handlerUploadThumbnail` makes outside this repository, and
the size in bytes of the file parts of the request body.
`randRead` is the 32 random bytes in `base64.RawURLEncoding`, absent when `rand.Read` fails. -/
structure ThumbnailEnv where
  uuidParse : Option String
  getBearerToken : Option String
  validateJWT : Option String
  filePartBytes : ℕ
  parseMultipartForm : Bool
  formFile : Option String
  parseMediaType : Option String
  getVideo : Option Video
  randRead : Option String
  osCreate : Bool
  ioCopy : Bool
  updateVideo : Bool
deriving DecidableEq, Repr

/-- Lines 79-110 of `handlerUploadThumbnail`: the body once the caller is known to own the
video. `join` is the library function `filepath.Join`. -/
def uploadThumbnailOwned (cfg : ApiConfig) (join : String → String → String)
    (env : ThumbnailEnv) (video : Video) (mediaType : String) : Result :=
  match (stringsSplit mediaType '/')[1]? with
  | none =>
    { status := 0, message := "", body := none, trace := [],
      panic := some "index out of range [1]" }
  | some fileExtension =>
    match env.randRead with
    | none => respondWithError [⟨.randRead, false⟩] 500 "Could not generate random bytes"
    | some imageFileName =>
      let imageFileFullName := imageFileName ++ "." ++ fileExtension
      let imagePath := join cfg.assetsRoot imageFileFullName
      if env.osCreate = false then
        respondWithError [⟨.randRead, true⟩, ⟨.osCreate imagePath, false⟩] 500
          "Error creating file"
      else if env.ioCopy = false then
        respondWithError [⟨.randRead, true⟩, ⟨.osCreate imagePath, true⟩, ⟨.ioCopy, false⟩] 500
          "Error writing to file"
      else
        let thumbnailURL := "http://localhost:" ++ cfg.port ++ "/assets/" ++ imageFileFullName
        let video' := { video with ThumbnailURL := some thumbnailURL }
        let t := [⟨.randRead, true⟩, ⟨.osCreate imagePath, true⟩, ⟨.ioCopy, true⟩]
        if env.updateVideo = false then
          respondWithError (t ++ [⟨.updateVideo video', false⟩]) 500 "Error updating video"
        else respondWithJSON (t ++ [⟨.updateVideo video', true⟩]) 200 video'

/-- Lines 52-110 of `handlerUploadThumbnail`: the body once the form file is open and its
closing is deferred. -/
def uploadThumbnailFile (cfg : ApiConfig) (join : String → String → String)
    (env : ThumbnailEnv) (userID : String) : Result :=
  match env.parseMediaType with
  | none => respondWithError [⟨.parseMediaType, false⟩] 400 "Cannot process media type"
  | some mediaType =>
    if ¬ (mediaType = "image/jpeg" ∨ mediaType = "image/png") then
      respondWithError [⟨.parseMediaType, true⟩, ⟨.mediaTypeCheck, false⟩] 400
        "Unsupported media type. Supported: 'image/jpeg', 'image/png'"
    else
      let t := [⟨.parseMediaType, true⟩, ⟨.mediaTypeCheck, true⟩]
      match env.getVideo with
      | none => respondWithError (t ++ [⟨.getVideo, false⟩]) 400 "Unable to fetch video"
      | some video =>
        if video.UserID ≠ userID then
          respondWithError (t ++ [⟨.getVideo, true⟩, ⟨.ownerCheck, false⟩]) 401
            "User is not the video owner"
        else
          (uploadThumbnailOwned cfg join env video mediaType).wrap
            (t ++ [⟨.getVideo, true⟩, ⟨.ownerCheck, true⟩]) []

/-- The handler `handlerUploadThumbnail`. -/
def handlerUploadThumbnail (cfg : ApiConfig) (join : String → String → String)
    (env : ThumbnailEnv) : Result :=
  match env.uuidParse with
  | none => respondWithError [⟨.uuidParse, false⟩] 400 "Invalid ID"
  | some _ =>
  match env.getBearerToken with
  | none =>
    respondWithError [⟨.uuidParse, true⟩, ⟨.getBearerToken, false⟩] 401 "Couldn't find JWT"
  | some _ =>
  match env.validateJWT with
  | none =>
    respondWithError [⟨.uuidParse, true⟩, ⟨.getBearerToken, true⟩, ⟨.validateJWT, false⟩]
      401 "Couldn't validate JWT"
  | some userID =>
  let t := [⟨.uuidParse, true⟩, ⟨.getBearerToken, true⟩, ⟨.validateJWT, true⟩]
  if env.parseMultipartForm = false then
    respondWithError (t ++ [⟨.parseMultipartForm (spillsToDisk env.filePartBytes), false⟩])
      400 "Cannot parse data"
  else
  match env.formFile with
  | none =>
    respondWithError
      (t ++ [⟨.parseMultipartForm (spillsToDisk env.filePartBytes), true⟩, ⟨.formFile, false⟩])
      400 "Unable to parse form file"
  | some _ =>
  (uploadThumbnailFile cfg join env userID).wrap
    (t ++ [⟨.parseMultipartForm (spillsToDisk env.filePartBytes), true⟩, ⟨.formFile, true⟩])
    [⟨.fileClose, true⟩]

/-! ## `url.go` -/

/-- How a Go function call ends: a returned value, a returned error, or a panic. -/
inductive Outcome (α : Type) where
  | ok (value : α)
  | err (msg : String)
  | panic (msg : String)
deriving DecidableEq, Repr

/-- The function `generatePresignedURL`; `presignGetObject` is the S3 presign client, called
with the bucket, the key and the expiry in nanoseconds. -/
def generatePresignedURL (presignGetObject : String → String → ℕ → Except String String)
    (bucket key : String) (expireTime : ℕ) : Except String String :=
  match presignGetObject bucket key expireTime with
  | .error e => .error ("error making presigned HTTP request: " ++ e)
  | .ok url => .ok url

/-- The constant `time.Second`, in nanoseconds. -/
def timeSecond : ℕ := 1000000000

/-- The method `dbVideoToSignedVideo`. Dereferencing a nil `VideoURL` and indexing
`videoURLParts` out of range are run-time panics. -/
def dbVideoToSignedVideo (presignGetObject : String → String → ℕ → Except String String)
    (video : Video) : Outcome Video :=
  match video.VideoURL with
  | none => .panic "invalid memory address or nil pointer dereference"
  | some videoURL =>
    let videoURLParts := stringsSplit videoURL ','
    match videoURLParts[0]?, videoURLParts[1]? with
    | some bucket, some key =>
      match generatePresignedURL presignGetObject bucket key (timeSecond * 5) with
      | .error e => .err ("error generating presigned URL: " ++ e)
      | .ok presignedURL => .ok { video with VideoURL := some presignedURL }
    | _, _ => .panic "index out of range"

/-! ## Observations on a run -/

/-- The files staged with `os.CreateTemp` that are on disk after an event: `os.CreateTemp`
adds the file it names, `os.Remove` deletes the file it is given. -/
def applyEvent (files : List String) (e : Event) : List String :=
  match e with
  | ⟨.createTemp (some name), true⟩ => name :: files
  | ⟨.osRemove name, true⟩ => files.filter (fun f => f ≠ name)
  | _ => files

/-- The files staged with `os.CreateTemp` that are on disk after a run that started with
`files`. -/
def filesAfter (files : List String) (trace : List Event) : List String :=
  trace.foldl applyEvent files

/-- Steps that create a file, write to the object store or update the record; the
multipart parse is one of them when it wrote temporary files. -/
def Step.mutates : Step → Bool
  | .parseMultipartForm tempFiles => tempFiles
  | .createTemp _ => true
  | .osCreate _ => true
  | .putObject _ _ _ => true
  | .updateVideo _ => true
  | _ => false

/-- Steps of `handlerUploadVideo` that come after the media type check, the deferred
closing of the form file apart. -/
def Step.afterTypeCheck : Step → Bool
  | .createTemp _ => true
  | .ioCopy => true
  | .seek => true
  | .getVideoAspectRatio _ => true
  | .putObject _ _ _ => true
  | .updateVideo _ => true
  | .tempFileClose => true
  | .osRemove _ => true
  | _ => false

/-- Input errors: malformed id, multipart parse failure, missing field, media type that
cannot be parsed or is not supported. -/
def Step.isInput : Step → Bool
  | .uuidParse => true
  | .parseMultipartForm _ => true
  | .formFile => true
  | .parseMediaType => true
  | .mediaTypeCheck => true
  | _ => false

/-- Auth errors: missing or invalid token, caller not the owner. -/
def Step.isAuth : Step → Bool
  | .getBearerToken => true
  | .validateJWT => true
  | .ownerCheck => true
  | _ => false

/-- Storage and persistence steps other than the fetch of the record: file creation, copy
and seek, random name generation, probe, object-store write, record update. -/
def Step.isStorage : Step → Bool
  | .createTemp _ => true
  | .osCreate _ => true
  | .randRead => true
  | .ioCopy => true
  | .seek => true
  | .getVideoAspectRatio _ => true
  | .putObject _ _ _ => true
  | .updateVideo _ => true
  | _ => false

/-- The text of `s` before its first `sep` (all of `s` when there is none). -/
def textBefore (sep : Char) (s : String) : String :=
  String.mk (s.data.takeWhile (fun c => c ≠ sep))

/-- The text of `s` after its first `sep` (empty when there is none). -/
def textAfter (sep : Char) (s : String) : String :=
  String.mk (s.data.dropWhile (fun c => c ≠ sep)).tail

/-- A configuration used in the examples. -/
def exampleConfig : ApiConfig where
  s3Bucket := "b1"
  s3Region := "us-east-1"
  assetsRoot := "assets"
  port := "8091"

/-- A video record owned by user `u1`. -/
def exampleVideo : Video where
  ID := "v1"
  UserID := "u1"
  VideoURL := none
  ThumbnailURL := none

/-- An upload by the owner of a 1920x1080 `video/mp4` file in which every call succeeds. -/
def exampleUpload : VideoEnv where
  uuidParse := some "v1"
  getBearerToken := some "token"
  validateJWT := some "u1"
  getVideo := some exampleVideo
  filePartBytes := 1048576
  parseMultipartForm := true
  formFile := some "video/mp4"
  parseMediaType := some "video/mp4"
  createTemp := some "/tmp/tubely-upload-1.mp4"
  ioCopy := true
  seek := true
  probe := .decoded [⟨1920, 1080⟩]
  putObject := true
  updateVideo := true

/-- A thumbnail upload by the owner of a `image/png` file in which every call succeeds. -/
def exampleThumbnail : ThumbnailEnv where
  uuidParse := some "v1"
  getBearerToken := some "token"
  validateJWT := some "u1"
  filePartBytes := 204800
  parseMultipartForm := true
  formFile := some "image/png"
  parseMediaType := some "image/png"
  getVideo := some exampleVideo
  randRead := some "cmFuZG9t"
  osCreate := true
  ioCopy := true
  updateVideo := true

/-- The upload of `exampleUpload`, by a user who does not own the video. -/
def exampleIntruder : VideoEnv := { exampleUpload with validateJWT := some "u2" }

/-- A thumbnail upload of 20 MiB, twice `maxMemory`, by a user who does not own the video. -/
def exampleLargeThumbnailIntruder : ThumbnailEnv :=
  { exampleThumbnail with validateJWT := some "u2", filePartBytes := 20971520 }

/-- The upload of `exampleUpload`, with a part declared `image/png`. -/
def examplePng : VideoEnv := { exampleUpload with parseMediaType := some "image/png" }

/-- The upload of `exampleUpload`, when the record store fails to fetch the video. -/
def exampleFetchFailure : VideoEnv := { exampleUpload with getVideo := none }

/-- The classification as the specification words it, on exact quotients: `16:9` when
`width/height` differs from `16/9` by less than `0.05`, otherwise `9:16` when it differs
from `9/16` by less than `0.05`, and `other` in every remaining case. -/
def specAspectRatio (width height : ℤ) : String :=
  if |(width : ℚ) / height - 16 / 9| < 5 / 100 then "16:9"
  else if |(width : ℚ) / height - 9 / 16| < 5 / 100 then "9:16"
  else "other"

/-- The status of a run against the steps that failed in it: 400 exactly when an input
step or the fetch of the record failed, 401 exactly when an auth step failed, 500 exactly
when a storage step or the update of the record failed, 200 exactly when nothing failed. -/
def StatusMapped (r : Result) : Prop :=
  (r.status = 400 ↔ ∃ e ∈ r.trace, e.ok = false ∧ (e.step.isInput = true ∨ e.step = .getVideo)) ∧
  (r.status = 401 ↔ ∃ e ∈ r.trace, e.ok = false ∧ e.step.isAuth = true) ∧
  (r.status = 500 ↔ ∃ e ∈ r.trace, e.ok = false ∧ e.step.isStorage = true) ∧
  (r.status = 200 ↔ ∀ e ∈ r.trace, e.ok = true)

/-- The prefix the specification gives the object key for a classification. -/
def classPrefix (aspectRatio : String) : String :=
  if aspectRatio = "16:9" then "landscape"
  else if aspectRatio = "9:16" then "portrait"
  else "other"

/-! ## Rounding lemmas -/

theorem roundHalfEven_ge {t : ℚ} {n : ℤ} (h : (n : ℚ) - 1 / 2 < t) : n ≤ roundHalfEven t := by
  have h1 := Int.floor_le t
  have h2 := Int.lt_floor_add_one t
  unfold roundHalfEven
  simp only
  have key : n ≤ ⌊t⌋ + 1 := by
    have : (n : ℚ) < ((⌊t⌋ + 1 : ℤ) : ℚ) + 1 := by push_cast; linarith
    have : n < (⌊t⌋ + 1) + 1 := by exact_mod_cast this
    omega
  split_ifs with c1 c2 c3
  · have : (n : ℚ) < ((⌊t⌋ : ℤ) : ℚ) + 1 := by linarith
    have : n < ⌊t⌋ + 1 := by exact_mod_cast this
    omega
  · exact key
  · have e : t - ⌊t⌋ = 1 / 2 := le_antisymm (not_lt.mp c2) (not_lt.mp c1)
    have : (n : ℚ) < ((⌊t⌋ : ℤ) : ℚ) + 1 := by linarith
    have : n < ⌊t⌋ + 1 := by exact_mod_cast this
    omega
  · exact key

theorem roundHalfEven_le {t : ℚ} {n : ℤ} (h : t < (n : ℚ) + 1 / 2) : roundHalfEven t ≤ n := by
  have h1 := Int.floor_le t
  have h2 := Int.lt_floor_add_one t
  unfold roundHalfEven
  simp only
  have key : ⌊t⌋ ≤ n := by
    have : ((⌊t⌋ : ℤ) : ℚ) < (n : ℚ) + 1 := by linarith
    have : ⌊t⌋ < n + 1 := by exact_mod_cast this
    omega
  split_ifs with c1 c2 c3
  · exact key
  · have : ((⌊t⌋ : ℤ) : ℚ) + 1 < (n : ℚ) + 1 := by linarith
    have : ⌊t⌋ + 1 < n + 1 := by exact_mod_cast this
    omega
  · exact key
  · have e : t - ⌊t⌋ = 1 / 2 := le_antisymm (not_lt.mp c2) (not_lt.mp c1)
    have : ((⌊t⌋ : ℤ) : ℚ) + 1 < (n : ℚ) + 1 := by linarith
    have : ⌊t⌋ + 1 < n + 1 := by exact_mod_cast this
    omega

theorem roundHalfEven_eq {t : ℚ} {n : ℤ} (h1 : (n : ℚ) - 1 / 2 < t) (h2 : t < (n : ℚ) + 1 / 2) :
    roundHalfEven t = n :=
  le_antisymm (roundHalfEven_le h2) (roundHalfEven_ge h1)

theorem roundHalfEven_le_of_le {t : ℚ} {n : ℤ} (h : t ≤ n) : roundHalfEven t ≤ n :=
  roundHalfEven_le (by linarith)

theorem roundHalfEven_ge_of_ge {t : ℚ} {n : ℤ} (h : (n : ℚ) ≤ t) : n ≤ roundHalfEven t :=
  roundHalfEven_ge (by linarith)

/-! ## Rounding never crosses a representable value -/

theorem ulpExp_cases {x : ℚ} (hx : x ≠ 0) :
    F64.ulpExp x = -1074 ∨ (2 : ℚ) ^ (F64.ulpExp x + 52) ≤ |x| := by
  unfold F64.ulpExp
  rcases le_total (Int.log 2 |x| - 52) (-1074) with h | h
  · left; exact max_eq_right h
  · right
    rw [max_eq_left h]
    have := Int.zpow_log_le_self (R := ℚ) (b := 2) (by norm_num) (abs_pos.mpr hx)
    simpa using this

theorem two_zpow_pos (e : ℤ) : (0 : ℚ) < 2 ^ e := zpow_pos (by norm_num) e

theorem abs_lt_of_small {c : ℚ} {m k e : ℤ} (hc : c = (m : ℚ) * 2 ^ k) (hm : |m| < 2 ^ 53)
    (hke : k < e) : |c| < (2 : ℚ) ^ (e + 52) := by
  have hm2 : |(m : ℚ)| < 2 ^ (53 : ℤ) := by
    have h : ((|m| : ℤ) : ℚ) < ((2 ^ 53 : ℤ) : ℚ) := by exact_mod_cast hm
    rw [Int.cast_abs] at h
    norm_num at h ⊢
    exact h
  rw [hc, abs_mul, abs_of_pos (two_zpow_pos k)]
  calc |(m : ℚ)| * 2 ^ k < 2 ^ (53 : ℤ) * 2 ^ k :=
        mul_lt_mul_of_pos_right hm2 (two_zpow_pos k)
    _ = 2 ^ (53 + k) := by rw [zpow_add₀ (by norm_num)]
    _ ≤ 2 ^ (e + 52) := zpow_le_zpow_right₀ (by norm_num) (by omega)

theorem scaled_le {c x : ℚ} {m k : ℤ} (hc : c = (m : ℚ) * 2 ^ k) (hm : |m| < 2 ^ 53)
    (hk : -1074 ≤ k) (hx : x ≠ 0) (h : x ≤ c) :
    (roundHalfEven (x / 2 ^ F64.ulpExp x) : ℚ) * 2 ^ F64.ulpExp x ≤ c := by
  set e := F64.ulpExp x with he
  have hpos := two_zpow_pos e
  by_cases hke : e ≤ k
  · obtain ⟨d, hd⟩ := Int.le.dest hke
    have hk2 : (2 : ℚ) ^ k = 2 ^ d * 2 ^ e := by
      rw [← hd, zpow_add₀ (by norm_num), zpow_natCast, mul_comm]
    have hcN : c = ((m * 2 ^ d : ℤ) : ℚ) * 2 ^ e := by rw [hc, hk2]; push_cast; ring
    have ht : x / 2 ^ e ≤ ((m * 2 ^ d : ℤ) : ℚ) := by
      rw [div_le_iff₀ hpos, ← hcN]; exact h
    have := roundHalfEven_le_of_le ht
    have hq : (roundHalfEven (x / 2 ^ e) : ℚ) ≤ ((m * 2 ^ d : ℤ) : ℚ) := by exact_mod_cast this
    rw [hcN]
    exact mul_le_mul_of_nonneg_right hq hpos.le
  · push_neg at hke
    have hsmall := abs_lt_of_small hc hm hke
    rcases ulpExp_cases hx with h1 | h1
    · rw [← he] at h1; omega
    · rw [← he] at h1
      have hxneg : x < 0 := by
        by_contra hcon
        push_neg at hcon
        rw [abs_of_nonneg hcon] at h1
        have := le_abs_self c
        linarith
      rw [abs_of_neg hxneg] at h1
      have ht : x / 2 ^ e ≤ ((-(2 ^ 52) : ℤ) : ℚ) := by
        rw [div_le_iff₀ hpos]
        have : (2 : ℚ) ^ (e + 52) = 2 ^ 52 * 2 ^ e := by
          rw [zpow_add₀ (by norm_num), mul_comm]; norm_num
        push_cast
        linarith
      have := roundHalfEven_le_of_le ht
      have hq : (roundHalfEven (x / 2 ^ e) : ℚ) ≤ ((-(2 ^ 52) : ℤ) : ℚ) := by exact_mod_cast this
      have h3 := mul_le_mul_of_nonneg_right hq hpos.le
      have : (2 : ℚ) ^ (e + 52) = 2 ^ 52 * 2 ^ e := by
        rw [zpow_add₀ (by norm_num), mul_comm]; norm_num
      have h4 := neg_abs_le c
      push_cast at h3
      linarith

theorem scaled_ge {c x : ℚ} {m k : ℤ} (hc : c = (m : ℚ) * 2 ^ k) (hm : |m| < 2 ^ 53)
    (hk : -1074 ≤ k) (hx : x ≠ 0) (h : c ≤ x) :
    c ≤ (roundHalfEven (x / 2 ^ F64.ulpExp x) : ℚ) * 2 ^ F64.ulpExp x := by
  set e := F64.ulpExp x with he
  have hpos := two_zpow_pos e
  by_cases hke : e ≤ k
  · obtain ⟨d, hd⟩ := Int.le.dest hke
    have hk2 : (2 : ℚ) ^ k = 2 ^ d * 2 ^ e := by
      rw [← hd, zpow_add₀ (by norm_num), zpow_natCast, mul_comm]
    have hcN : c = ((m * 2 ^ d : ℤ) : ℚ) * 2 ^ e := by rw [hc, hk2]; push_cast; ring
    have ht : ((m * 2 ^ d : ℤ) : ℚ) ≤ x / 2 ^ e := by
      rw [le_div_iff₀ hpos, ← hcN]; exact h
    have := roundHalfEven_ge_of_ge ht
    have hq : ((m * 2 ^ d : ℤ) : ℚ) ≤ (roundHalfEven (x / 2 ^ e) : ℚ) := by exact_mod_cast this
    rw [hcN]
    exact mul_le_mul_of_nonneg_right hq hpos.le
  · push_neg at hke
    have hsmall := abs_lt_of_small hc hm hke
    rcases ulpExp_cases hx with h1 | h1
    · rw [← he] at h1; omega
    · rw [← he] at h1
      have hxpos : 0 < x := by
        by_contra hcon
        push_neg at hcon
        rw [abs_of_nonpos hcon] at h1
        have := neg_abs_le c
        linarith
      rw [abs_of_pos hxpos] at h1
      have ht : (((2 ^ 52 : ℤ)) : ℚ) ≤ x / 2 ^ e := by
        rw [le_div_iff₀ hpos]
        have : (2 : ℚ) ^ (e + 52) = 2 ^ 52 * 2 ^ e := by
          rw [zpow_add₀ (by norm_num), mul_comm]; norm_num
        push_cast
        linarith
      have := roundHalfEven_ge_of_ge ht
      have hq : (((2 ^ 52 : ℤ)) : ℚ) ≤ (roundHalfEven (x / 2 ^ e) : ℚ) := by exact_mod_cast this
      have h3 := mul_le_mul_of_nonneg_right hq hpos.le
      have : (2 : ℚ) ^ (e + 52) = 2 ^ 52 * 2 ^ e := by
        rw [zpow_add₀ (by norm_num), mul_comm]; norm_num
      have h4 := le_abs_self c
      push_cast at h3
      linarith

theorem round_below {c x : ℚ} (hc : F64.Representable c) (h : x ≤ c) :
    F64.Below (F64.round x) c := by
  obtain ⟨m, k, hmk, hm, hk, hlt⟩ := hc
  unfold F64.round
  by_cases hx : x = 0
  · simp only [hx, if_true, F64.Below]; rw [← hx]; exact h
  · simp only [hx, if_false]
    have hy := scaled_le hmk hm hk hx h
    split_ifs with h1 h2
    · exfalso
      have ht : ((0 : ℤ) : ℚ) ≤ x / 2 ^ F64.ulpExp x := by
        simpa using div_nonneg h2.le (two_zpow_pos _).le
      have h0 := roundHalfEven_ge_of_ge ht
      have h0q : (0 : ℚ) ≤ (roundHalfEven (x / 2 ^ F64.ulpExp x) : ℚ) := by exact_mod_cast h0
      have hy0 := mul_nonneg h0q (two_zpow_pos (F64.ulpExp x)).le
      rw [abs_of_nonneg hy0] at h1
      have := le_abs_self c
      linarith
    · trivial
    · exact hy

theorem round_above {c x : ℚ} (hc : F64.Representable c) (h : c ≤ x) :
    F64.Above (F64.round x) c := by
  obtain ⟨m, k, hmk, hm, hk, hlt⟩ := hc
  unfold F64.round
  by_cases hx : x = 0
  · simp only [hx, if_true, F64.Above]; rw [← hx]; exact h
  · simp only [hx, if_false]
    have hy := scaled_ge hmk hm hk hx h
    split_ifs with h1 h2
    · trivial
    · exfalso
      have hx0 : x ≤ 0 := not_lt.mp h2
      have ht : x / 2 ^ F64.ulpExp x ≤ ((0 : ℤ) : ℚ) := by
        simpa using div_nonpos_of_nonpos_of_nonneg hx0 (two_zpow_pos _).le
      have h0 := roundHalfEven_le_of_le ht
      have h0q : (roundHalfEven (x / 2 ^ F64.ulpExp x) : ℚ) ≤ 0 := by exact_mod_cast h0
      have hy0 := mul_nonpos_of_nonpos_of_nonneg h0q (two_zpow_pos (F64.ulpExp x)).le
      rw [abs_of_nonpos hy0] at h1
      have := neg_abs_le c
      linarith
    · exact hy

theorem round_representable {c : ℚ} (hc : F64.Representable c) : F64.round c = F64.fin c := by
  have h1 := round_below hc le_rfl
  have h2 := round_above hc le_rfl
  cases h : F64.round c with
  | fin y => rw [h] at h1 h2; simp only [F64.Below, F64.Above] at h1 h2; rw [le_antisymm h1 h2]
  | pinf => rw [h] at h1; exact h1.elim
  | ninf => rw [h] at h2; exact h2.elim
  | nan => rw [h] at h1; exact h1.elim

theorem representable_int {n : ℤ} (h : |n| < 2 ^ 53) : F64.Representable (n : ℚ) := by
  refine ⟨n, 0, by simp, h, by norm_num, ?_⟩
  have h2 : ((|n| : ℤ) : ℚ) < ((2 ^ 53 : ℤ) : ℚ) := by exact_mod_cast h
  rw [Int.cast_abs] at h2
  have : ((2 ^ 53 : ℤ) : ℚ) < 2 ^ (1024 : ℤ) := by norm_num
  linarith

theorem representable_dyadic (m k : ℤ) (hm : |m| < 2 ^ 53) (hk : -1074 ≤ k) (hk2 : k ≤ 970) :
    F64.Representable ((m : ℚ) * 2 ^ k) := by
  refine ⟨m, k, rfl, hm, hk, ?_⟩
  have := abs_lt_of_small (c := (m : ℚ) * 2 ^ k) (e := k + 1) rfl hm (by omega)
  refine lt_of_lt_of_le this ?_
  exact zpow_le_zpow_right₀ (by norm_num) (by omega)

/-- Rounding of a positive `x` whose binade `[2^k, 2^(k+1))` is known. -/
theorem round_of_binade {x : ℚ} (k : ℤ) (h1 : (2 : ℚ) ^ k ≤ x) (h2 : x < 2 ^ (k + 1))
    (hk : -1022 ≤ k) (hk2 : k ≤ 1022) :
    F64.round x = F64.fin ((roundHalfEven (x / 2 ^ (k - 52)) : ℚ) * 2 ^ (k - 52)) := by
  have hx0 : 0 < x := lt_of_lt_of_le (two_zpow_pos k) h1
  have hlog : Int.log 2 |x| = k := by
    rw [abs_of_pos hx0]
    apply le_antisymm
    · have := (Int.lt_zpow_iff_log_lt (R := ℚ) (b := 2) (by norm_num) hx0 (x := k + 1)).mp
        (by simpa using h2)
      omega
    · exact (Int.zpow_le_iff_le_log (R := ℚ) (b := 2) (by norm_num) hx0).mp (by simpa using h1)
  have he : F64.ulpExp x = k - 52 := by
    unfold F64.ulpExp
    rw [hlog]
    exact max_eq_left (by omega)
  unfold F64.round
  rw [if_neg hx0.ne', he]
  simp only
  have hpos := two_zpow_pos (k - 52)
  have ht0 : ((0 : ℤ) : ℚ) ≤ x / 2 ^ (k - 52) := by simpa using div_nonneg hx0.le hpos.le
  have ht1 : x / 2 ^ (k - 52) ≤ ((2 ^ 53 : ℤ) : ℚ) := by
    rw [div_le_iff₀ hpos]
    have : (2 : ℚ) ^ (k + 1) = 2 ^ 53 * 2 ^ (k - 52) := by
      have : k + 1 = 53 + (k - 52) := by ring
      rw [this, zpow_add₀ (by norm_num)]; norm_num
    push_cast
    linarith
  have r0 := roundHalfEven_ge_of_ge ht0
  have r1 := roundHalfEven_le_of_le ht1
  have r0q : (0 : ℚ) ≤ (roundHalfEven (x / 2 ^ (k - 52)) : ℚ) := by exact_mod_cast r0
  have r1q : (roundHalfEven (x / 2 ^ (k - 52)) : ℚ) ≤ 2 ^ 53 := by exact_mod_cast r1
  have hy0 := mul_nonneg r0q hpos.le
  have hy1 : (roundHalfEven (x / 2 ^ (k - 52)) : ℚ) * 2 ^ (k - 52) ≤ 2 ^ (k + 1) := by
    have : (2 : ℚ) ^ (k + 1) = 2 ^ 53 * 2 ^ (k - 52) := by
      have : k + 1 = 53 + (k - 52) := by ring
      rw [this, zpow_add₀ (by norm_num)]; norm_num
    rw [this]
    exact mul_le_mul_of_nonneg_right r1q hpos.le
  have hy2 : (2 : ℚ) ^ (k + 1) < 2 ^ (1024 : ℤ) := zpow_lt_zpow_right₀ (by norm_num) (by omega)
  rw [if_neg]
  rw [abs_of_nonneg hy0]
  linarith

/-! ## The constants of `getVideoAspectRatio` as `float64` values -/

theorem round_eval {x : ℚ} (k m : ℤ) (h1 : (2 : ℚ) ^ k ≤ x) (h2 : x < 2 ^ (k + 1))
    (hk : -1022 ≤ k) (hk2 : k ≤ 1022) (hm1 : (m : ℚ) - 1 / 2 < x / 2 ^ (k - 52))
    (hm2 : x / 2 ^ (k - 52) < (m : ℚ) + 1 / 2) :
    F64.round x = F64.fin ((m : ℚ) * 2 ^ (k - 52)) := by
  rw [round_of_binade k h1 h2 hk hk2, roundHalfEven_eq hm1 hm2]

theorem ofInt_eq {n : ℤ} (h : |n| < 2 ^ 53) : F64.ofInt n = F64.fin n :=
  round_representable (representable_int h)

theorem ratio16by9_eq : ratio16by9 = F64.fin (8006399337547548 * 2 ^ (-52 : ℤ)) := by
  unfold ratio16by9
  rw [ofInt_eq (by norm_num), ofInt_eq (by norm_num)]
  simp only [F64.div]
  rw [if_neg (by norm_num)]
  have := round_eval (x := ((16 : ℤ) : ℚ) / ((9 : ℤ) : ℚ)) 0 8006399337547548
    (by norm_num) (by norm_num) (by norm_num) (by norm_num) (by norm_num) (by norm_num)
  simpa using this

theorem ratio9by16_eq : ratio9by16 = F64.fin (5066549580791808 * 2 ^ (-53 : ℤ)) := by
  unfold ratio9by16
  rw [ofInt_eq (by norm_num), ofInt_eq (by norm_num)]
  simp only [F64.div]
  rw [if_neg (by norm_num)]
  have := round_eval (x := ((9 : ℤ) : ℚ) / ((16 : ℤ) : ℚ)) (-1) 5066549580791808
    (by norm_num) (by norm_num) (by norm_num) (by norm_num) (by norm_num) (by norm_num)
  simpa using this

theorem tolerance_eq :
    F64.round toleranceRange = F64.fin (7205759403792794 * 2 ^ (-57 : ℤ)) := by
  unfold toleranceRange
  have := round_eval (x := (5 : ℚ) / 100) (-5) 7205759403792794
    (by norm_num) (by norm_num) (by norm_num) (by norm_num) (by norm_num) (by norm_num)
  simpa using this

theorem lo169_eq : F64.sub ratio16by9 (F64.round toleranceRange)
    = F64.fin (7781219356179023 * 2 ^ (-52 : ℤ)) := by
  rw [ratio16by9_eq, tolerance_eq]
  simp only [F64.sub]
  have := round_eval
    (x := (8006399337547548 : ℚ) * 2 ^ (-52 : ℤ) - 7205759403792794 * 2 ^ (-57 : ℤ))
    0 7781219356179023
    (by norm_num) (by norm_num) (by norm_num) (by norm_num) (by norm_num) (by norm_num)
  simpa using this

theorem hi169_eq : F64.add ratio16by9 (F64.round toleranceRange)
    = F64.fin (8231579318916073 * 2 ^ (-52 : ℤ)) := by
  rw [ratio16by9_eq, tolerance_eq]
  simp only [F64.add]
  have := round_eval
    (x := (8006399337547548 : ℚ) * 2 ^ (-52 : ℤ) + 7205759403792794 * 2 ^ (-57 : ℤ))
    0 8231579318916073
    (by norm_num) (by norm_num) (by norm_num) (by norm_num) (by norm_num) (by norm_num)
  simpa using this

theorem lo916_eq : F64.sub ratio9by16 (F64.round toleranceRange)
    = F64.fin (4616189618054758 * 2 ^ (-53 : ℤ)) := by
  rw [ratio9by16_eq, tolerance_eq]
  simp only [F64.sub]
  have := round_eval
    (x := (5066549580791808 : ℚ) * 2 ^ (-53 : ℤ) - 7205759403792794 * 2 ^ (-57 : ℤ))
    (-1) 4616189618054758
    (by norm_num) (by norm_num) (by norm_num) (by norm_num) (by norm_num) (by norm_num)
  simpa using this

theorem hi916_eq : F64.add ratio9by16 (F64.round toleranceRange)
    = F64.fin (5516909543528858 * 2 ^ (-53 : ℤ)) := by
  rw [ratio9by16_eq, tolerance_eq]
  simp only [F64.add]
  have := round_eval
    (x := (5066549580791808 : ℚ) * 2 ^ (-53 : ℤ) + 7205759403792794 * 2 ^ (-57 : ℤ))
    (-1) 5516909543528858
    (by norm_num) (by norm_num) (by norm_num) (by norm_num) (by norm_num) (by norm_num)
  simpa using this

/-! ## Comparisons of a rounded quotient with a threshold -/

theorem representable_two_zpow (k : ℤ) (hk : -1074 ≤ k) (hk2 : k ≤ 1023) :
    F64.Representable ((2 : ℚ) ^ k) := by
  refine ⟨1, k, by simp, by norm_num, hk, ?_⟩
  rw [abs_of_pos (two_zpow_pos k)]
  exact zpow_lt_zpow_right₀ (by norm_num) (by omega)

theorem zpow_split (k : ℤ) : (2 : ℚ) ^ k = 2 ^ 52 * 2 ^ (k - 52) := by
  have : k = 52 + (k - 52) := by ring
  conv_lhs => rw [this]
  rw [zpow_add₀ (by norm_num)]; norm_num

theorem zpow_split_succ (k : ℤ) : (2 : ℚ) ^ (k + 1) = 2 ^ 53 * 2 ^ (k - 52) := by
  have : k + 1 = 53 + (k - 52) := by ring
  rw [this, zpow_add₀ (by norm_num)]; norm_num

theorem gt_round_true {x : ℚ} (k L : ℤ) (hL : 2 ^ 52 ≤ L) (hL2 : L < 2 ^ 53)
    (hk : -1022 ≤ k) (hk2 : k ≤ 1022) (h : (L : ℚ) + 1 / 2 < x / 2 ^ (k - 52)) :
    F64.gt (F64.round x) (F64.fin ((L : ℚ) * 2 ^ (k - 52))) = true := by
  have hpos := two_zpow_pos (k - 52)
  have hLq : ((2 : ℚ) ^ 52) ≤ L := by exact_mod_cast hL
  have hLq2 : (L : ℚ) < 2 ^ 53 := by exact_mod_cast hL2
  rw [lt_div_iff₀ hpos] at h
  have hlow : (2 : ℚ) ^ k ≤ x := by
    rw [zpow_split k]
    nlinarith
  by_cases hx : x < 2 ^ (k + 1)
  · rw [round_of_binade k hlow hx hk hk2]
    have hr : L + 1 ≤ roundHalfEven (x / 2 ^ (k - 52)) := by
      apply roundHalfEven_ge
      rw [lt_div_iff₀ hpos]
      push_cast
      linarith
    have hrq : (L : ℚ) + 1 ≤ (roundHalfEven (x / 2 ^ (k - 52)) : ℚ) := by exact_mod_cast hr
    simp only [F64.gt, F64.lt, decide_eq_true_eq]
    nlinarith
  · push_neg at hx
    have hab := round_above (representable_two_zpow (k + 1) (by omega) (by omega)) hx
    have hc : (L : ℚ) * 2 ^ (k - 52) < 2 ^ (k + 1) := by
      rw [zpow_split_succ k]
      exact mul_lt_mul_of_pos_right hLq2 hpos
    cases hr : F64.round x with
    | fin y =>
      rw [hr] at hab
      simp only [F64.Above] at hab
      simp only [F64.gt, F64.lt, decide_eq_true_eq]
      linarith
    | pinf => rfl
    | ninf => rw [hr] at hab; exact hab.elim
    | nan => rw [hr] at hab; exact hab.elim

theorem gt_round_false {x : ℚ} (k L : ℤ) (hL : 2 ^ 52 ≤ L) (hL2 : L < 2 ^ 53)
    (hk : -1022 ≤ k) (hk2 : k ≤ 1022) (h : x / 2 ^ (k - 52) < (L : ℚ) + 1 / 2) :
    F64.gt (F64.round x) (F64.fin ((L : ℚ) * 2 ^ (k - 52))) = false := by
  have hpos := two_zpow_pos (k - 52)
  have hLq : ((2 : ℚ) ^ 52) ≤ L := by exact_mod_cast hL
  have hLq2 : (L : ℚ) < 2 ^ 53 := by exact_mod_cast hL2
  by_cases hx : (2 : ℚ) ^ k ≤ x
  · have hup : x < 2 ^ (k + 1) := by
      have h' := h
      rw [div_lt_iff₀ hpos] at h'
      rw [zpow_split_succ k]
      have h3 : (L : ℚ) + 1 ≤ 2 ^ 53 := by exact_mod_cast (by omega : L + 1 ≤ 2 ^ 53)
      have := mul_le_mul_of_nonneg_right h3 hpos.le
      linarith
    rw [round_of_binade k hx hup hk hk2]
    have hr : roundHalfEven (x / 2 ^ (k - 52)) ≤ L := roundHalfEven_le h
    have hrq : (roundHalfEven (x / 2 ^ (k - 52)) : ℚ) ≤ L := by exact_mod_cast hr
    simp only [F64.gt, F64.lt, decide_eq_false_iff_not, not_lt]
    exact mul_le_mul_of_nonneg_right hrq hpos.le
  · push_neg at hx
    have hbe := round_below (representable_two_zpow k (by omega) (by omega)) hx.le
    have hc : (2 : ℚ) ^ k ≤ (L : ℚ) * 2 ^ (k - 52) := by
      rw [zpow_split k]
      exact mul_le_mul_of_nonneg_right hLq hpos.le
    cases hr : F64.round x with
    | fin y =>
      rw [hr] at hbe
      simp only [F64.Below] at hbe
      simp only [F64.gt, F64.lt, decide_eq_false_iff_not, not_lt]
      linarith
    | pinf => rw [hr] at hbe; exact hbe.elim
    | ninf => rfl
    | nan => rw [hr] at hbe; exact hbe.elim

theorem lt_round_true {x : ℚ} (k H : ℤ) (hH : 2 ^ 52 < H) (hH2 : H ≤ 2 ^ 53)
    (hk : -1022 ≤ k) (hk2 : k ≤ 1022) (h : x / 2 ^ (k - 52) < (H : ℚ) - 1 / 2) :
    F64.lt (F64.round x) (F64.fin ((H : ℚ) * 2 ^ (k - 52))) = true := by
  have hpos := two_zpow_pos (k - 52)
  have hHq : ((2 : ℚ) ^ 52) < H := by exact_mod_cast hH
  have hHq2 : (H : ℚ) ≤ 2 ^ 53 := by exact_mod_cast hH2
  by_cases hx : (2 : ℚ) ^ k ≤ x
  · have hup : x < 2 ^ (k + 1) := by
      rw [div_lt_iff₀ hpos] at h
      rw [zpow_split_succ k]
      nlinarith
    rw [round_of_binade k hx hup hk hk2]
    have hr : roundHalfEven (x / 2 ^ (k - 52)) ≤ H - 1 := by
      apply roundHalfEven_le
      push_cast
      linarith
    have hrq : (roundHalfEven (x / 2 ^ (k - 52)) : ℚ) ≤ (H : ℚ) - 1 := by exact_mod_cast hr
    simp only [F64.lt, decide_eq_true_eq]
    nlinarith
  · push_neg at hx
    have hbe := round_below (representable_two_zpow k (by omega) (by omega)) hx.le
    have hc : (2 : ℚ) ^ k < (H : ℚ) * 2 ^ (k - 52) := by
      rw [zpow_split k]
      exact mul_lt_mul_of_pos_right hHq hpos
    cases hr : F64.round x with
    | fin y =>
      rw [hr] at hbe
      simp only [F64.Below] at hbe
      simp only [F64.lt, decide_eq_true_eq]
      linarith
    | pinf => rw [hr] at hbe; exact hbe.elim
    | ninf => rfl
    | nan => rw [hr] at hbe; exact hbe.elim

theorem lt_round_false {x : ℚ} (k H : ℤ) (hH : 2 ^ 52 < H) (hH2 : H ≤ 2 ^ 53)
    (hk : -1022 ≤ k) (hk2 : k ≤ 1022) (h : (H : ℚ) - 1 / 2 < x / 2 ^ (k - 52)) :
    F64.lt (F64.round x) (F64.fin ((H : ℚ) * 2 ^ (k - 52))) = false := by
  have hpos := two_zpow_pos (k - 52)
  have hHq : ((2 : ℚ) ^ 52) < H := by exact_mod_cast hH
  have hHq2 : (H : ℚ) ≤ 2 ^ 53 := by exact_mod_cast hH2
  have h' := h
  rw [lt_div_iff₀ hpos] at h'
  have hlow : (2 : ℚ) ^ k ≤ x := by
    rw [zpow_split k]
    have h3 : (2 : ℚ) ^ 52 + 1 ≤ H := by exact_mod_cast (by omega : (2 : ℤ) ^ 52 + 1 ≤ H)
    have := mul_le_mul_of_nonneg_right h3 hpos.le
    linarith
  by_cases hx : x < 2 ^ (k + 1)
  · rw [round_of_binade k hlow hx hk hk2]
    have hr : H ≤ roundHalfEven (x / 2 ^ (k - 52)) := roundHalfEven_ge h
    have hrq : (H : ℚ) ≤ (roundHalfEven (x / 2 ^ (k - 52)) : ℚ) := by exact_mod_cast hr
    simp only [F64.lt, decide_eq_false_iff_not, not_lt]
    exact mul_le_mul_of_nonneg_right hrq hpos.le
  · push_neg at hx
    have hab := round_above (representable_two_zpow (k + 1) (by omega) (by omega)) hx
    have hc : (H : ℚ) * 2 ^ (k - 52) ≤ 2 ^ (k + 1) := by
      rw [zpow_split_succ k]
      exact mul_le_mul_of_nonneg_right hHq2 hpos.le
    cases hr : F64.round x with
    | fin y =>
      rw [hr] at hab
      simp only [F64.Above] at hab
      simp only [F64.lt, decide_eq_false_iff_not, not_lt]
      linarith
    | pinf => rfl
    | ninf => rw [hr] at hab; exact hab.elim
    | nan => rw [hr] at hab; exact hab.elim

theorem gt_of_above {r : F64} {c d : ℚ} (h : F64.Above r c) (hd : d < c) :
    F64.gt r (F64.fin d) = true := by
  cases r with
  | fin y => simp only [F64.Above] at h; simp only [F64.gt, F64.lt, decide_eq_true_eq]; linarith
  | pinf => rfl
  | ninf => exact h.elim
  | nan => exact h.elim

theorem not_lt_of_above {r : F64} {c d : ℚ} (h : F64.Above r c) (hd : d ≤ c) :
    F64.lt r (F64.fin d) = false := by
  cases r with
  | fin y =>
    simp only [F64.Above] at h
    simp only [F64.lt, decide_eq_false_iff_not, not_lt]; linarith
  | pinf => rfl
  | ninf => exact h.elim
  | nan => exact h.elim

theorem lt_of_below {r : F64} {c d : ℚ} (h : F64.Below r c) (hd : c < d) :
    F64.lt r (F64.fin d) = true := by
  cases r with
  | fin y => simp only [F64.Below] at h; simp only [F64.lt, decide_eq_true_eq]; linarith
  | pinf => exact h.elim
  | ninf => rfl
  | nan => exact h.elim

theorem not_gt_of_below {r : F64} {c d : ℚ} (h : F64.Below r c) (hd : c ≤ d) :
    F64.gt r (F64.fin d) = false := by
  cases r with
  | fin y =>
    simp only [F64.Below] at h
    simp only [F64.gt, F64.lt, decide_eq_false_iff_not, not_lt]; linarith
  | pinf => exact h.elim
  | ninf => rfl
  | nan => exact h.elim

/-- The quotient of a huge width by a height of at most `2^52` is at least `2`. -/
theorem ratio_above_of_big {w h : ℤ} (hh : 0 < h) (hb : h ≤ 2 ^ 52) (hw : 2 ^ 53 ≤ w) :
    F64.Above (F64.div (F64.ofInt w) (F64.fin h)) 2 := by
  have hhq : (0 : ℚ) < h := by exact_mod_cast hh
  have hbq : (h : ℚ) ≤ 2 ^ 52 := by exact_mod_cast hb
  have hwq : ((2 : ℚ) ^ (53 : ℤ)) ≤ (w : ℚ) := by
    have : ((2 ^ 53 : ℤ) : ℚ) ≤ (w : ℚ) := by exact_mod_cast hw
    norm_num at this ⊢; exact this
  have hab := round_above (representable_two_zpow 53 (by norm_num) (by norm_num)) hwq
  unfold F64.ofInt
  cases hr : F64.round (w : ℚ) with
  | fin y =>
    rw [hr] at hab
    simp only [F64.Above] at hab
    simp only [F64.div]
    rw [if_neg hhq.ne']
    have h2 : F64.Representable (2 : ℚ) := by
      simpa using representable_two_zpow 1 (by norm_num) (by norm_num)
    apply round_above h2
    rw [le_div_iff₀ hhq]
    norm_num at hab
    linarith
  | pinf => simp only [F64.div]; rw [if_pos hhq.le]; trivial
  | ninf => rw [hr] at hab; exact hab.elim
  | nan => rw [hr] at hab; exact hab.elim

/-- The quotient of a width that is zero or negative by a positive height is not positive. -/
theorem ratio_below_of_nonpos {w h : ℤ} (hh : 0 < h) (hw : w ≤ 0) :
    F64.Below (F64.div (F64.ofInt w) (F64.fin h)) 0 := by
  have hhq : (0 : ℚ) < h := by exact_mod_cast hh
  have hwq : (w : ℚ) ≤ 0 := by exact_mod_cast hw
  have h0 : F64.Representable (0 : ℚ) := by
    simpa using representable_int (n := 0) (by norm_num)
  have hbe := round_below h0 hwq
  unfold F64.ofInt
  cases hr : F64.round (w : ℚ) with
  | fin y =>
    rw [hr] at hbe
    simp only [F64.Below] at hbe
    simp only [F64.div]
    rw [if_neg hhq.ne']
    apply round_below h0
    exact div_nonpos_of_nonpos_of_nonneg hbe hhq.le
  | pinf => rw [hr] at hbe; exact hbe.elim
  | ninf => simp only [F64.div]; rw [if_pos hhq.le]; trivial
  | nan => rw [hr] at hbe; exact hbe.elim

theorem scaled_gt {w h : ℤ} (hh : 0 < h) (n : ℕ) (c : ℚ)
    (hc : c * h < w * 2 ^ n) : c < ((w : ℚ) / h) / 2 ^ (-(n : ℤ)) := by
  have hhq : (0 : ℚ) < h := by exact_mod_cast hh
  rw [zpow_neg, zpow_natCast, div_inv_eq_mul, div_mul_eq_mul_div, lt_div_iff₀ hhq]
  exact hc

theorem scaled_lt {w h : ℤ} (hh : 0 < h) (n : ℕ) (c : ℚ)
    (hc : (w : ℚ) * 2 ^ n < c * h) : ((w : ℚ) / h) / 2 ^ (-(n : ℤ)) < c := by
  have hhq : (0 : ℚ) < h := by exact_mod_cast hh
  rw [zpow_neg, zpow_natCast, div_inv_eq_mul, div_mul_eq_mul_div, div_lt_iff₀ hhq]
  exact hc

/-! ## The classification on integers -/

theorem ofInt_height {h : ℤ} (hh : 0 < h) (hb : h ≤ 2 ^ 52) : F64.ofInt h = F64.fin h :=
  ofInt_eq (abs_lt.mpr ⟨by omega, by omega⟩)

theorem ratio_mid {w h : ℤ} (hh : 0 < h) (hw1 : 0 < w) (hw2 : w < 2 ^ 53) :
    F64.div (F64.ofInt w) (F64.fin h) = F64.round ((w : ℚ) / h) := by
  have hhq : (0 : ℚ) < h := by exact_mod_cast hh
  rw [ofInt_eq (abs_lt.mpr ⟨by omega, by omega⟩)]
  simp only [F64.div]
  rw [if_neg hhq.ne']

/-- Comparison `ratio > c` against a threshold `c = L * 2^(k-52)` in `[0, 2)`, decided on the
integers: `P` is the exact inequality between `width / height` and the rounding breakpoint. -/
theorem cmp_gt (w h : ℤ) (hh : 0 < h) (hb : h ≤ 2 ^ 52) (k L : ℤ) (n : ℕ) (hkn : k - 52 = -(n : ℤ))
    (hL : 2 ^ 52 ≤ L) (hL2 : L < 2 ^ 53) (hk : -1022 ≤ k) (hk2 : k ≤ 0)
    (P : Prop) [Decidable P]
    (hP1 : P → (2 * L + 1) * h < 2 * (w * 2 ^ n))
    (hP2 : ¬ P → 2 * (w * 2 ^ n) < (2 * L + 1) * h)
    (hbig : 2 ^ 53 ≤ w → P) (hneg : w ≤ 0 → ¬ P) :
    F64.gt (F64.div (F64.ofInt w) (F64.ofInt h)) (F64.fin ((L : ℚ) * 2 ^ (k - 52)))
      = decide P := by
  have hpos := two_zpow_pos (k - 52)
  have hLq : ((2 : ℚ) ^ 52) ≤ L := by exact_mod_cast hL
  have hLq2 : (L : ℚ) < 2 ^ 53 := by exact_mod_cast hL2
  have hd0 : (0 : ℚ) ≤ (L : ℚ) * 2 ^ (k - 52) := by positivity
  have hd2 : (L : ℚ) * 2 ^ (k - 52) < 2 := by
    have h1 : (2 : ℚ) ^ (k + 1) ≤ 2 ^ (1 : ℤ) := zpow_le_zpow_right₀ (by norm_num) (by omega)
    have h2 : (L : ℚ) * 2 ^ (k - 52) < 2 ^ (k + 1) := by
      rw [zpow_split_succ k]; exact mul_lt_mul_of_pos_right hLq2 hpos
    norm_num at h1
    linarith
  rw [ofInt_height hh hb]
  rcases le_or_lt w 0 with hw | hw
  · rw [not_gt_of_below (ratio_below_of_nonpos hh hw) hd0, decide_eq_false (hneg hw)]
  rcases lt_or_le w (2 ^ 53) with hw2 | hw2
  · rw [ratio_mid hh hw hw2]
    by_cases hp : P
    · rw [decide_eq_true hp]
      apply gt_round_true k L hL hL2 hk (by omega)
      rw [hkn]
      apply scaled_gt hh
      have q : (((2 * L + 1) * h : ℤ) : ℚ) < ((2 * (w * 2 ^ n) : ℤ) : ℚ) := by
        exact_mod_cast hP1 hp
      push_cast at q
      linarith
    · rw [decide_eq_false hp]
      apply gt_round_false k L hL hL2 hk (by omega)
      rw [hkn]
      apply scaled_lt hh
      have q : ((2 * (w * 2 ^ n) : ℤ) : ℚ) < (((2 * L + 1) * h : ℤ) : ℚ) := by
        exact_mod_cast hP2 hp
      push_cast at q
      linarith
  · rw [gt_of_above (ratio_above_of_big hh hb hw2) hd2, decide_eq_true (hbig hw2)]

/-- Comparison `ratio < c` against a threshold `c = H * 2^(k-52)` in `(0, 2]`. -/
theorem cmp_lt (w h : ℤ) (hh : 0 < h) (hb : h ≤ 2 ^ 52) (k H : ℤ) (n : ℕ) (hkn : k - 52 = -(n : ℤ))
    (hH : 2 ^ 52 < H) (hH2 : H ≤ 2 ^ 53) (hk : -1022 ≤ k) (hk2 : k ≤ 0)
    (P : Prop) [Decidable P]
    (hP1 : P → 2 * (w * 2 ^ n) < (2 * H - 1) * h)
    (hP2 : ¬ P → (2 * H - 1) * h < 2 * (w * 2 ^ n))
    (hbig : 2 ^ 53 ≤ w → ¬ P) (hneg : w ≤ 0 → P) :
    F64.lt (F64.div (F64.ofInt w) (F64.ofInt h)) (F64.fin ((H : ℚ) * 2 ^ (k - 52)))
      = decide P := by
  have hpos := two_zpow_pos (k - 52)
  have hHq : ((2 : ℚ) ^ 52) < H := by exact_mod_cast hH
  have hHq2 : (H : ℚ) ≤ 2 ^ 53 := by exact_mod_cast hH2
  have hd0 : (0 : ℚ) < (H : ℚ) * 2 ^ (k - 52) := by
    have : (0 : ℚ) < H := by linarith [show (0 : ℚ) < 2 ^ 52 by norm_num]
    positivity
  have hd2 : (H : ℚ) * 2 ^ (k - 52) ≤ 2 := by
    have h1 : (2 : ℚ) ^ (k + 1) ≤ 2 ^ (1 : ℤ) := zpow_le_zpow_right₀ (by norm_num) (by omega)
    have h2 : (H : ℚ) * 2 ^ (k - 52) ≤ 2 ^ (k + 1) := by
      rw [zpow_split_succ k]; exact mul_le_mul_of_nonneg_right hHq2 hpos.le
    norm_num at h1
    linarith
  rw [ofInt_height hh hb]
  rcases le_or_lt w 0 with hw | hw
  · rw [lt_of_below (ratio_below_of_nonpos hh hw) hd0, decide_eq_true (hneg hw)]
  rcases lt_or_le w (2 ^ 53) with hw2 | hw2
  · rw [ratio_mid hh hw hw2]
    by_cases hp : P
    · rw [decide_eq_true hp]
      apply lt_round_true k H hH hH2 hk (by omega)
      rw [hkn]
      apply scaled_lt hh
      have q : ((2 * (w * 2 ^ n) : ℤ) : ℚ) < (((2 * H - 1) * h : ℤ) : ℚ) := by
        exact_mod_cast hP1 hp
      push_cast at q
      linarith
    · rw [decide_eq_false hp]
      apply lt_round_false k H hH hH2 hk (by omega)
      rw [hkn]
      apply scaled_gt hh
      have q : (((2 * H - 1) * h : ℤ) : ℚ) < ((2 * (w * 2 ^ n) : ℤ) : ℚ) := by
        exact_mod_cast hP2 hp
      push_cast at q
      linarith
  · rw [not_lt_of_above (ratio_above_of_big hh hb hw2) hd2, decide_eq_false (hbig hw2)]

/-- Classification of every width over a positive height of at most `2^44`, on integers. -/
theorem aspectRatioOf_bounded (w h : ℤ) (hh : 0 < h) (hb : h ≤ 2 ^ 44) :
    aspectRatioOf w h =
      if 311 * h ≤ 180 * w ∧ 180 * w < 329 * h then "16:9"
      else if 41 * h < 80 * w ∧ 80 * w < 49 * h then "9:16"
      else "other" := by
  have hb2 : h ≤ 2 ^ 52 := by omega
  have hA := cmp_gt w h hh hb2 0 7781219356179023 52 (by norm_num) (by norm_num) (by norm_num)
    (by norm_num) (by norm_num) (311 * h ≤ 180 * w)
    (by intro hp; omega) (by intro hp; omega) (by intro hp; omega) (by intro hp; omega)
  have hB := cmp_lt w h hh hb2 0 8231579318916073 52 (by norm_num) (by norm_num) (by norm_num)
    (by norm_num) (by norm_num) (180 * w < 329 * h)
    (by intro hp; omega) (by intro hp; omega) (by intro hp; omega) (by intro hp; omega)
  have hC := cmp_gt w h hh hb2 (-1) 4616189618054758 53 (by norm_num) (by norm_num) (by norm_num)
    (by norm_num) (by norm_num) (41 * h < 80 * w)
    (by intro hp; omega) (by intro hp; omega) (by intro hp; omega) (by intro hp; omega)
  have hD := cmp_lt w h hh hb2 (-1) 5516909543528858 53 (by norm_num) (by norm_num) (by norm_num)
    (by norm_num) (by norm_num) (80 * w < 49 * h)
    (by intro hp; omega) (by intro hp; omega) (by intro hp; omega) (by intro hp; omega)
  unfold aspectRatioOf
  simp only [lo169_eq, hi169_eq, lo916_eq, hi916_eq]
  norm_num at hA hB hC hD
  norm_num
  rw [hA, hB, hC, hD]
  simp only [Bool.and_eq_true, decide_eq_true_eq]

/-- Beyond heights of about `2^45` the rounding of the quotient decides: this pair has
`311/180 ≤ width/height < 329/180` and is nevertheless classified `other`. -/
theorem aspectRatioOf_large_height :
    aspectRatioOf 61429696410051 33608952443189 = "other" := by
  have hA := cmp_gt 61429696410051 33608952443189 (by norm_num) (by norm_num) 0
    7781219356179023 52 (by norm_num) (by norm_num) (by norm_num)
    (by norm_num) (by norm_num) True
    (by intro _; norm_num) (by intro hp; exact absurd trivial hp) (by intro _; trivial)
    (by intro hp; norm_num at hp)
  have hB := cmp_lt 61429696410051 33608952443189 (by norm_num) (by norm_num) 0
    8231579318916073 52 (by norm_num) (by norm_num) (by norm_num)
    (by norm_num) (by norm_num) False
    (by intro hp; exact hp.elim) (by intro _; norm_num) (by intro _ hp; exact hp)
    (by intro hp; norm_num at hp)
  have hD := cmp_lt 61429696410051 33608952443189 (by norm_num) (by norm_num) (-1)
    5516909543528858 53 (by norm_num) (by norm_num) (by norm_num)
    (by norm_num) (by norm_num) False
    (by intro hp; exact hp.elim) (by intro _; norm_num) (by intro _ hp; exact hp)
    (by intro hp; norm_num at hp)
  unfold aspectRatioOf
  simp only [lo169_eq, hi169_eq, lo916_eq, hi916_eq]
  norm_num at hA hB hD
  norm_num
  simp only [hA, hB, hD]
  simp

/-! ## Swapping width and height -/

theorem ofInt_pos_cases {w : ℤ} (hw : 0 < w) :
    F64.ofInt w = F64.pinf ∨ ∃ y : ℚ, 1 ≤ y ∧ F64.ofInt w = F64.fin y := by
  have h1 : F64.Representable (1 : ℚ) := by
    simpa using representable_int (n := 1) (by norm_num)
  have hwq : (1 : ℚ) ≤ (w : ℚ) := by exact_mod_cast hw
  have hab := round_above h1 hwq
  unfold F64.ofInt
  cases hr : F64.round (w : ℚ) with
  | fin y => rw [hr] at hab; exact Or.inr ⟨y, hab, rfl⟩
  | pinf => exact Or.inl rfl
  | ninf => rw [hr] at hab; exact hab.elim
  | nan => rw [hr] at hab; exact hab.elim

theorem lt_of_gt_round {q c : ℚ} (hc : F64.Representable c)
    (h : F64.gt (F64.round q) (F64.fin c) = true) : c < q := by
  by_contra hcon
  push_neg at hcon
  rw [not_gt_of_below (round_below hc hcon) le_rfl] at h
  exact Bool.false_ne_true h

theorem lt_of_lt_round {q c : ℚ} (hc : F64.Representable c)
    (h : F64.lt (F64.round q) (F64.fin c) = true) : q < c := by
  by_contra hcon
  push_neg at hcon
  rw [not_lt_of_above (round_above hc hcon) le_rfl] at h
  exact Bool.false_ne_true h

/-- A pair classified `16:9` is classified `9:16` once swapped: every quotient in the
`16:9` window has its reciprocal between `35/64` and `19/32`, well inside the other window. -/
theorem aspectRatioOf_swap (w h : ℤ) (hw : 0 < w) (hh : 0 < h)
    (hc : aspectRatioOf w h = "16:9") : aspectRatioOf h w = "9:16" := by
  unfold aspectRatioOf at hc ⊢
  simp only [lo169_eq, hi169_eq, lo916_eq, hi916_eq] at hc ⊢
  have hwin : (F64.gt (F64.div (F64.ofInt w) (F64.ofInt h))
        (F64.fin (7781219356179023 * 2 ^ (-52 : ℤ))) &&
      F64.lt (F64.div (F64.ofInt w) (F64.ofInt h))
        (F64.fin (8231579318916073 * 2 ^ (-52 : ℤ)))) = true := by
    by_contra hcon
    rw [if_neg hcon] at hc
    split_ifs at hc <;> exact absurd hc (by decide)
  rw [Bool.and_eq_true] at hwin
  obtain ⟨hg, hl⟩ := hwin
  have hlo : F64.Representable ((7781219356179023 : ℚ) * 2 ^ (-52 : ℤ)) := by
    simpa using representable_dyadic 7781219356179023 (-52) (by norm_num) (by norm_num)
      (by norm_num)
  have hhi : F64.Representable ((8231579318916073 : ℚ) * 2 ^ (-52 : ℤ)) := by
    simpa using representable_dyadic 8231579318916073 (-52) (by norm_num) (by norm_num)
      (by norm_num)
  have h35 : F64.Representable ((35 : ℚ) / 64) := by
    have := representable_dyadic 35 (-6) (by norm_num) (by norm_num) (by norm_num)
    norm_num at this ⊢; exact this
  have h19 : F64.Representable ((19 : ℚ) / 32) := by
    have := representable_dyadic 19 (-5) (by norm_num) (by norm_num) (by norm_num)
    norm_num at this ⊢; exact this
  rcases ofInt_pos_cases hw with ew | ⟨ya, hya, ew⟩
  · -- the width converts to +Inf: the quotient is +Inf or NaN, never below the upper bound
    rcases ofInt_pos_cases hh with eh | ⟨yb, hyb, eh⟩
    · rw [ew, eh] at hl; simp [F64.div, F64.lt] at hl
    · rw [ew, eh] at hl
      have : (0 : ℚ) ≤ yb := by linarith
      simp [F64.div, F64.lt, this] at hl
  · rcases ofInt_pos_cases hh with eh | ⟨yb, hyb, eh⟩
    · rw [ew, eh] at hg
      simp only [F64.div, F64.gt, F64.lt, decide_eq_true_eq] at hg
      norm_num at hg
    · have hya0 : (0 : ℚ) < ya := by linarith
      have hyb0 : (0 : ℚ) < yb := by linarith
      rw [ew, eh] at hg hl
      simp only [F64.div] at hg hl
      rw [if_neg hyb0.ne'] at hg hl
      have q1 := lt_of_gt_round hlo hg
      have q2 := lt_of_lt_round hhi hl
      rw [lt_div_iff₀ hyb0] at q1
      rw [div_lt_iff₀ hyb0] at q2
      norm_num at q1 q2
      rw [ew, eh]
      simp only [F64.div, if_neg hya0.ne']
      have hbel : F64.Below (F64.round (yb / ya)) (19 / 32) := by
        apply round_below h19
        rw [div_le_iff₀ hya0]
        linarith
      have hab : F64.Above (F64.round (yb / ya)) (35 / 64) := by
        apply round_above h35
        rw [le_div_iff₀ hya0]
        linarith
      have c1 := not_gt_of_below (d := 7781219356179023 * 2 ^ (-52 : ℤ)) hbel (by norm_num)
      have c2 := gt_of_above (d := 4616189618054758 * 2 ^ (-53 : ℤ)) hab (by norm_num)
      have c3 := lt_of_below (d := 5516909543528858 * 2 ^ (-53 : ℤ)) hbel (by norm_num)
      simp only [c1, c2, c3]
      rfl

/-! ## `strings.Split` -/

theorem splitChars_of_not_mem (sep : Char) :
    ∀ l : List Char, sep ∉ l → splitChars sep l = [l]
  | [], _ => rfl
  | c :: cs, h => by
    have hc : c ≠ sep := fun e => h (by simp [e])
    have hcs : sep ∉ cs := fun e => h (List.mem_cons_of_mem _ e)
    simp [splitChars, hc, splitChars_of_not_mem sep cs hcs]

theorem splitChars_cons_sep (sep : Char) (cs : List Char) :
    splitChars sep (sep :: cs) = [] :: splitChars sep cs := by
  rw [splitChars, if_pos rfl]

theorem splitChars_cons_ne {sep c : Char} (hc : c ≠ sep) (cs : List Char) :
    splitChars sep (c :: cs) =
      (c :: (splitChars sep cs).headD []) :: (splitChars sep cs).tail := by
  rw [splitChars, if_neg hc]

theorem splitChars_ne_nil (sep : Char) : ∀ l : List Char, splitChars sep l ≠ []
  | [] => by simp [splitChars]
  | c :: cs => by
    by_cases hc : c = sep
    · rw [hc, splitChars_cons_sep]; exact List.cons_ne_nil _ _
    · rw [splitChars_cons_ne hc]; exact List.cons_ne_nil _ _

theorem splitChars_headD (sep : Char) :
    ∀ l : List Char, (splitChars sep l).headD [] = l.takeWhile (fun c => c ≠ sep)
  | [] => rfl
  | c :: cs => by
    by_cases hc : c = sep
    · rw [hc, splitChars_cons_sep]; simp
    · rw [splitChars_cons_ne hc, List.headD_cons, splitChars_headD sep cs]
      simp [hc]

theorem splitChars_tail (sep : Char) :
    ∀ l : List Char, sep ∈ l →
      (splitChars sep l).tail = splitChars sep (l.dropWhile (fun c => c ≠ sep)).tail
  | [], h => by simp at h
  | c :: cs, h => by
    by_cases hc : c = sep
    · rw [hc, splitChars_cons_sep]; simp
    · have hcs : sep ∈ cs := by
        rcases List.mem_cons.mp h with e | e
        · exact absurd e.symm hc
        · exact e
      rw [splitChars_cons_ne hc, List.tail_cons, splitChars_tail sep cs hcs]
      simp [hc]

/-- A string with a separator splits into the text before the first separator, followed by
the pieces of the text after it. -/
theorem splitChars_of_mem (sep : Char) (l : List Char) (h : sep ∈ l) :
    splitChars sep l = l.takeWhile (fun c => c ≠ sep) ::
      splitChars sep (l.dropWhile (fun c => c ≠ sep)).tail := by
  have h1 := splitChars_headD sep l
  have h2 := splitChars_tail sep l h
  cases hs : splitChars sep l with
  | nil => exact absurd hs (splitChars_ne_nil sep l)
  | cons p ps =>
    rw [hs] at h1 h2
    simp only [List.headD_cons, List.tail_cons] at h1 h2
    rw [h1, h2]

/-- The second piece of a string with a separator: the text between the first separator
and the next one. -/
theorem splitChars_second (sep : Char) (l : List Char) (h : sep ∈ l) :
    ∃ rest, splitChars sep l = l.takeWhile (fun c => c ≠ sep) ::
      ((l.dropWhile (fun c => c ≠ sep)).tail.takeWhile (fun c => c ≠ sep)) :: rest := by
  rw [splitChars_of_mem sep l h]
  have h1 := splitChars_headD sep (l.dropWhile (fun c => c ≠ sep)).tail
  cases hs : splitChars sep (l.dropWhile (fun c => c ≠ sep)).tail with
  | nil => exact absurd hs (splitChars_ne_nil sep _)
  | cons p ps =>
    rw [hs] at h1
    simp only [List.headD_cons] at h1
    exact ⟨ps, by rw [h1]⟩

/-! ## The status against the failed steps -/

@[simp] theorem wrap_status (r : Result) (a b : List Event) : (r.wrap a b).status = r.status :=
  rfl

@[simp] theorem wrap_trace (r : Result) (a b : List Event) :
    (r.wrap a b).trace = a ++ r.trace ++ b := rfl

@[simp] theorem wrap_panic (r : Result) (a b : List Event) : (r.wrap a b).panic = r.panic :=
  rfl

/-- Wrapping a run in steps that all succeeded does not change which steps failed. -/
theorem StatusMapped.wrap {r : Result} (h : StatusMapped r) {a b : List Event}
    (ha : ∀ e ∈ a, e.ok = true) (hb : ∀ e ∈ b, e.ok = true) : StatusMapped (r.wrap a b) := by
  have key : ∀ P : Event → Prop,
      (∃ e ∈ a ++ r.trace ++ b, e.ok = false ∧ P e) ↔ ∃ e ∈ r.trace, e.ok = false ∧ P e := by
    intro P
    constructor
    · rintro ⟨e, he, hf, hp⟩
      simp only [List.mem_append] at he
      rcases he with (he | he) | he
      · rw [ha e he] at hf; exact absurd hf (by decide)
      · exact ⟨e, he, hf, hp⟩
      · rw [hb e he] at hf; exact absurd hf (by decide)
    · rintro ⟨e, he, hf, hp⟩
      exact ⟨e, by simp [he], hf, hp⟩
  obtain ⟨h1, h2, h3, h4⟩ := h
  refine ⟨?_, ?_, ?_, ?_⟩
  · rw [wrap_status, wrap_trace, h1]; exact (key _).symm
  · rw [wrap_status, wrap_trace, h2]; exact (key _).symm
  · rw [wrap_status, wrap_trace, h3]; exact (key _).symm
  · rw [wrap_status, wrap_trace, h4]
    constructor
    · intro h e he
      simp only [List.mem_append] at he
      rcases he with (he | he) | he
      · exact ha e he
      · exact h e he
      · exact hb e he
    · intro h e he
      exact h e (by simp [he])

theorem uploadVideoStaged_statusMapped (cfg : ApiConfig) (env : VideoEnv) (video : Video)
    (mt name : String) : StatusMapped (uploadVideoStaged cfg env video mt name) := by
  unfold uploadVideoStaged StatusMapped
  simp only [respondWithError, respondDefault]
  repeat' split
  all_goals simp [Step.isInput, Step.isAuth, Step.isStorage]

theorem uploadVideoFile_statusMapped (cfg : ApiConfig) (env : VideoEnv) (video : Video) :
    StatusMapped (uploadVideoFile cfg env video) := by
  unfold uploadVideoFile
  simp only [respondWithError]
  repeat' split
  · simp [StatusMapped, Step.isInput, Step.isAuth, Step.isStorage]
  · simp [StatusMapped, Step.isInput, Step.isAuth, Step.isStorage]
  · simp [StatusMapped, Step.isInput, Step.isAuth, Step.isStorage]
  · exact (uploadVideoStaged_statusMapped _ _ _ _ _).wrap (by simp) (by simp)

theorem handlerUploadVideo_statusMapped (cfg : ApiConfig) (env : VideoEnv) :
    StatusMapped (handlerUploadVideo cfg env) := by
  unfold handlerUploadVideo
  simp only [respondWithError]
  repeat' split
  all_goals first
    | exact (uploadVideoFile_statusMapped _ _ _).wrap (by simp) (by simp)
    | simp [StatusMapped, Step.isInput, Step.isAuth, Step.isStorage]

/-! ## Steps of the upload handlers -/

theorem aspect_1920_1080 : getVideoAspectRatio (.decoded [⟨1920, 1080⟩]) = .ok "16:9" := by
  simp only [getVideoAspectRatio]
  rw [aspectRatioOf_bounded _ _ (by norm_num) (by norm_num)]
  simp

theorem updateVideo_event {cfg : ApiConfig} {env : VideoEnv} {v : Video} {b : Bool}
    (h : ⟨.updateVideo v, b⟩ ∈ (handlerUploadVideo cfg env).trace) :
    ∃ name ar video, env.createTemp = some name ∧ env.getVideo = some video ∧
      getVideoAspectRatio env.probe = .ok ar ∧
      v = { video with VideoURL := some (videoURLOf cfg (s3KeyOf name ar)) } := by
  unfold handlerUploadVideo uploadVideoFile uploadVideoStaged at h
  simp only [respondWithError, respondDefault] at h
  repeat' split at h
  all_goals simp at h
  all_goals exact ⟨_, _, _, ‹_›, ‹_›, ‹_›, h.1⟩

theorem putObject_event {cfg : ApiConfig} {env : VideoEnv} {bucket key ct : String} {b : Bool}
    (h : ⟨.putObject bucket key ct, b⟩ ∈ (handlerUploadVideo cfg env).trace) :
    ∃ name ar, env.createTemp = some name ∧ getVideoAspectRatio env.probe = .ok ar ∧
      bucket = cfg.s3Bucket ∧ key = s3KeyOf name ar ∧ ct = "video/mp4" := by
  unfold handlerUploadVideo uploadVideoFile uploadVideoStaged at h
  simp only [respondWithError, respondDefault] at h
  repeat' split at h
  all_goals simp at h
  all_goals simp_all

theorem s3KeyOf_eq (name ar : String) :
    s3KeyOf name ar = classPrefix ar ++ "/" ++ filepathBase name := by
  unfold s3KeyOf classPrefix
  split_ifs <;> rfl

theorem exampleUpload_trace :
    (handlerUploadVideo exampleConfig exampleUpload).trace =
      [⟨.uuidParse, true⟩, ⟨.getBearerToken, true⟩, ⟨.validateJWT, true⟩, ⟨.getVideo, true⟩,
        ⟨.ownerCheck, true⟩, ⟨.parseMultipartForm false, true⟩, ⟨.formFile, true⟩,
        ⟨.parseMediaType, true⟩, ⟨.mediaTypeCheck, true⟩,
        ⟨.createTemp (some "/tmp/tubely-upload-1.mp4"), true⟩, ⟨.ioCopy, true⟩, ⟨.seek, true⟩,
        ⟨.getVideoAspectRatio "/tmp/tubely-upload-1.mp4", true⟩,
        ⟨.putObject "b1" "landscape/tubely-upload-1.mp4" "video/mp4", true⟩,
        ⟨.updateVideo ⟨"v1", "u1",
          some "https://b1.s3.us-east-1.amazonaws.com/landscape/tubely-upload-1.mp4", none⟩,
          true⟩,
        ⟨.tempFileClose, true⟩, ⟨.osRemove "/tmp/tubely-upload-1.mp4", true⟩,
        ⟨.fileClose, true⟩] := by
  simp [handlerUploadVideo, uploadVideoFile, uploadVideoStaged, exampleUpload, exampleVideo,
    aspect_1920_1080, respondDefault, exampleConfig]
  decide

/-- The run of `handlerUploadThumbnail` for a caller who does not own the fetched record. -/
theorem thumbnail_non_owner_run {cfg : ApiConfig} {join : String → String → String}
    {tenv : ThumbnailEnv} {u : String} {v : Video} (hne : v.UserID ≠ u)
    (hu : tenv.validateJWT = some u) (hv : tenv.getVideo = some v)
    (h : ⟨.getVideo, true⟩ ∈ (handlerUploadThumbnail cfg join tenv).trace) :
    (handlerUploadThumbnail cfg join tenv).status = 401 ∧
      (handlerUploadThumbnail cfg join tenv).trace =
        [⟨.uuidParse, true⟩, ⟨.getBearerToken, true⟩, ⟨.validateJWT, true⟩] ++
          ⟨.parseMultipartForm (spillsToDisk tenv.filePartBytes), true⟩ ::
            [⟨.formFile, true⟩, ⟨.parseMediaType, true⟩, ⟨.mediaTypeCheck, true⟩,
              ⟨.getVideo, true⟩, ⟨.ownerCheck, false⟩, ⟨.fileClose, true⟩] := by
  unfold handlerUploadThumbnail uploadThumbnailFile at h ⊢
  simp only [respondWithError, hu, hv] at h ⊢
  repeat' split at h
  all_goals simp_all
  all_goals (split_ifs <;> simp_all)

/-- C6. A caller who does not own the fetched record gets status 401. In
`handlerUploadVideo` the run then contains no file creation, no object-store write and no
`UpdateVideo` call. In `handlerUploadThumbnail` it contains no `os.Create` and no
`UpdateVideo` call either, but `r.ParseMultipartForm` runs before the record is fetched:
when the file parts exceed `maxMemory` it has written temporary files before the owner
check answers. -/
theorem non_owner_rejection (cfg : ApiConfig) (join : String → String → String)
    (env : VideoEnv) (tenv : ThumbnailEnv) (u : String) (v : Video) (hne : v.UserID ≠ u) :
    (env.validateJWT = some u → env.getVideo = some v →
      ⟨.getVideo, true⟩ ∈ (handlerUploadVideo cfg env).trace →
      (handlerUploadVideo cfg env).status = 401 ∧
        ∀ e ∈ (handlerUploadVideo cfg env).trace, e.step.mutates = false) ∧
    (tenv.validateJWT = some u → tenv.getVideo = some v →
      ⟨.getVideo, true⟩ ∈ (handlerUploadThumbnail cfg join tenv).trace →
      (handlerUploadThumbnail cfg join tenv).status = 401 ∧
        (∀ e ∈ (handlerUploadThumbnail cfg join tenv).trace,
          e.step.mutates = true → e.step = .parseMultipartForm true) ∧
        (maxMemory < tenv.filePartBytes →
          ∃ before e after, (handlerUploadThumbnail cfg join tenv).trace =
              before ++ e :: after ∧
            e.step.mutates = true ∧ ⟨.ownerCheck, false⟩ ∈ after)) := by
  constructor
  · intro hu hv h
    unfold handlerUploadVideo at h ⊢
    simp only [respondWithError, hu, hv] at h ⊢
    repeat' split at h
    all_goals simp_all [Step.mutates]
  · intro hu hv h
    obtain ⟨hs, ht⟩ := thumbnail_non_owner_run hne hu hv h
    refine ⟨hs, ?_, ?_⟩
    · rw [ht]
      intro e he hm
      simp only [List.cons_append, List.nil_append, List.mem_cons, List.mem_singleton,
        List.not_mem_nil, or_false] at he
      rcases he with rfl | rfl | rfl | rfl | rfl | rfl | rfl | rfl | rfl | rfl <;>
        simp_all [Step.mutates]
    · intro hbig
      have hsp : spillsToDisk tenv.filePartBytes = true := by
        simp [spillsToDisk, hbig]
      rw [hsp] at ht
      exact ⟨_, _, _, ht, rfl, by simp⟩

/-- C7. When `handlerUploadVideo` gets as far as parsing the declared media type of the
part: if the type is not `video/mp4` (or cannot be parsed) the response has status 400 and
none of the later steps runs (no temporary file, no copy, no probe, no object-store write,
no record update); if it is `video/mp4` the check passes and the handler goes on to create
the temporary file. -/
theorem type_rejection (cfg : ApiConfig) (env : VideoEnv) (parsed : Bool)
    (hreach : ⟨.parseMediaType, parsed⟩ ∈ (handlerUploadVideo cfg env).trace) :
    (env.parseMediaType ≠ some "video/mp4" →
      (handlerUploadVideo cfg env).status = 400 ∧
        ∀ e ∈ (handlerUploadVideo cfg env).trace, e.step.afterTypeCheck = false) ∧
    (env.parseMediaType = some "video/mp4" →
      ⟨.mediaTypeCheck, true⟩ ∈ (handlerUploadVideo cfg env).trace ∧
        ⟨.createTemp env.createTemp, env.createTemp.isSome⟩ ∈
          (handlerUploadVideo cfg env).trace) := by
  constructor
  · intro hne
    unfold handlerUploadVideo uploadVideoFile at hreach ⊢
    simp only [respondWithError] at hreach ⊢
    repeat' split at hreach
    all_goals simp_all [Step.afterTypeCheck, or_imp, forall_and]
  · intro he
    unfold handlerUploadVideo uploadVideoFile at hreach ⊢
    simp only [respondWithError, he] at hreach ⊢
    repeat' split at hreach
    all_goals simp_all [or_imp, forall_and]

theorem staged_no_createTemp (cfg : ApiConfig) (env : VideoEnv) (video : Video)
    (mt name : String) (n : Option String) (b : Bool) :
    ⟨.createTemp n, b⟩ ∉ (uploadVideoStaged cfg env video mt name).trace := by
  unfold uploadVideoStaged
  simp only [respondWithError, respondDefault]
  repeat' split
  all_goals simp

theorem exists_prefix_cons {α : Type} {a : α} {l s : List α} (h : ∃ b, l = b ++ s) :
    ∃ b, a :: l = b ++ s := by
  obtain ⟨b, hb⟩ := h
  exact ⟨a :: b, by rw [hb]; rfl⟩

/-- C8. In every run of `handlerUploadVideo` that created the temporary file, whatever
happened afterwards, the last steps close and remove that file, and it is not on disk when
the handler has returned (`os.Remove` taken to delete the file it is given). -/
theorem temp_file_removed (cfg : ApiConfig) (env : VideoEnv) (name : String)
    (files : List String)
    (h : ⟨.createTemp (some name), true⟩ ∈ (handlerUploadVideo cfg env).trace) :
    name ∉ filesAfter files (handlerUploadVideo cfg env).trace ∧
      ∃ before, (handlerUploadVideo cfg env).trace =
        before ++ [⟨.tempFileClose, true⟩, ⟨.osRemove name, true⟩, ⟨.fileClose, true⟩] := by
  unfold handlerUploadVideo uploadVideoFile at h ⊢
  simp only [respondWithError] at h ⊢
  repeat' split at h
  all_goals simp at h
  rcases h with rfl | h
  · simp only [*]
    simp [filesAfter, applyEvent, List.foldl_append]
    repeat (first | exact ⟨_, rfl⟩ | apply exists_prefix_cons)
  · exact absurd h (staged_no_createTemp _ _ _ _ _ _ _)

theorem stringsSplit_jpeg : (stringsSplit "image/jpeg" '/')[1]? = some "jpeg" := by decide

theorem stringsSplit_png : (stringsSplit "image/png" '/')[1]? = some "png" := by decide

theorem uploadThumbnailOwned_statusMapped (cfg : ApiConfig) (join : String → String → String)
    (env : ThumbnailEnv) (video : Video) (mt : String)
    (hmt : mt = "image/jpeg" ∨ mt = "image/png") :
    StatusMapped (uploadThumbnailOwned cfg join env video mt) ∧
      (uploadThumbnailOwned cfg join env video mt).panic = none := by
  unfold uploadThumbnailOwned
  rcases hmt with rfl | rfl
  · simp only [stringsSplit_jpeg, respondWithError, respondWithJSON]
    repeat' split
    all_goals simp [StatusMapped, Step.isInput, Step.isAuth, Step.isStorage]
  · simp only [stringsSplit_png, respondWithError, respondWithJSON]
    repeat' split
    all_goals simp [StatusMapped, Step.isInput, Step.isAuth, Step.isStorage]

theorem uploadThumbnailFile_statusMapped (cfg : ApiConfig) (join : String → String → String)
    (env : ThumbnailEnv) (userID : String) :
    StatusMapped (uploadThumbnailFile cfg join env userID) ∧
      (uploadThumbnailFile cfg join env userID).panic = none := by
  unfold uploadThumbnailFile
  simp only [respondWithError]
  repeat' split
  all_goals first
    | exact ⟨(uploadThumbnailOwned_statusMapped _ _ _ _ _ (by tauto)).1.wrap (by simp) (by simp),
        (uploadThumbnailOwned_statusMapped _ _ _ _ _ (by tauto)).2⟩
    | simp [StatusMapped, Step.isInput, Step.isAuth, Step.isStorage]

theorem handlerUploadThumbnail_statusMapped (cfg : ApiConfig)
    (join : String → String → String) (env : ThumbnailEnv) :
    StatusMapped (handlerUploadThumbnail cfg join env) ∧
      (handlerUploadThumbnail cfg join env).panic = none := by
  unfold handlerUploadThumbnail
  simp only [respondWithError]
  repeat' split
  all_goals first
    | exact ⟨(uploadThumbnailFile_statusMapped _ _ _ _).1.wrap (by simp) (by simp),
        (uploadThumbnailFile_statusMapped _ _ _ _).2⟩
    | simp [StatusMapped, Step.isInput, Step.isAuth, Step.isStorage]

/-! ## The stored locator and its decoding -/

theorem filepathBase_no_comma {name : String} (h : ',' ∉ name.data) :
    ',' ∉ (filepathBase name).data := by
  unfold filepathBase
  simp only
  split_ifs with h1 h2
  · decide
  · decide
  · intro hc
    apply h
    have h3 := List.mem_reverse.mp hc
    have h4 := (List.takeWhile_prefix (fun c => decide (c ≠ '/'))).subset h3
    have h5 := List.mem_reverse.mp (List.mem_reverse.mp h4)
    have h6 := (List.dropWhile_suffix (fun c => decide (c = '/'))).subset h5
    exact List.mem_reverse.mp h6

theorem s3KeyOf_no_comma {name : String} (ar : String) (h : ',' ∉ name.data) :
    ',' ∉ (s3KeyOf name ar).data := by
  have hb := filepathBase_no_comma h
  unfold s3KeyOf
  simp only
  split_ifs <;> simp only [String.data_append, List.mem_append, not_or] <;>
    exact ⟨by decide, hb⟩

theorem videoURLOf_no_comma {cfg : ApiConfig} {key : String} (hb : ',' ∉ cfg.s3Bucket.data)
    (hr : ',' ∉ cfg.s3Region.data) (hk : ',' ∉ key.data) :
    ',' ∉ (videoURLOf cfg key).data := by
  unfold videoURLOf
  simp only [String.data_append, List.mem_append, not_or]
  exact ⟨⟨⟨⟨⟨by decide, hb⟩, by decide⟩, hr⟩, by decide⟩, hk⟩

theorem dbVideoToSignedVideo_no_comma
    (presignGetObject : String → String → ℕ → Except String String) (video : Video)
    (s : String) (hs : video.VideoURL = some s) (hc : ',' ∉ s.data) :
    dbVideoToSignedVideo presignGetObject video = .panic "index out of range" := by
  unfold dbVideoToSignedVideo
  rw [hs]
  simp [stringsSplit, splitChars_of_not_mem ',' s.data hc]

/-- C4. A locator without comma has a single piece, so `videoURLParts[1]` is out of range:
`dbVideoToSignedVideo` panics instead of returning an error value. -/
theorem dbVideoToSignedVideo_panics_without_comma
    (presignGetObject : String → String → ℕ → Except String String) (video : Video)
    (s : String) (hs : video.VideoURL = some s) (hc : ',' ∉ s.data) :
    dbVideoToSignedVideo presignGetObject video = .panic "index out of range" :=
  dbVideoToSignedVideo_no_comma presignGetObject video s hs hc

theorem dbVideoToSignedVideo_panics_without_comma_witness :
    ',' ∉ "b1".data ∧
      dbVideoToSignedVideo (fun _ _ _ => .ok "signed") ⟨"v1", "u1", some "b1", none⟩
        = .panic "index out of range" :=
  ⟨by decide, dbVideoToSignedVideo_panics_without_comma _ _ "b1" rfl (by decide)⟩

/-- C2. Whatever is uploaded, with a bucket, a region and a staged file name that contain
no comma, the record `handlerUploadVideo` stores has a `VideoURL` without comma, and
decoding it with `dbVideoToSignedVideo` panics: the stored string never yields back the
bucket and the key. -/
theorem stored_locator_not_decodable (cfg : ApiConfig) (env : VideoEnv) (v : Video)
    (presignGetObject : String → String → ℕ → Except String String)
    (hb : ',' ∉ cfg.s3Bucket.data) (hr : ',' ∉ cfg.s3Region.data)
    (hn : ∀ name, env.createTemp = some name → ',' ∉ name.data)
    (h : ⟨.updateVideo v, true⟩ ∈ (handlerUploadVideo cfg env).trace) :
    dbVideoToSignedVideo presignGetObject v = .panic "index out of range" := by
  obtain ⟨name, ar, video, h1, _, _, h4⟩ := updateVideo_event h
  apply dbVideoToSignedVideo_no_comma presignGetObject v
    (videoURLOf cfg (s3KeyOf name ar)) (by rw [h4])
  exact videoURLOf_no_comma hb hr (s3KeyOf_no_comma ar (hn name h1))

theorem stored_locator_not_decodable_witness :
    ⟨.updateVideo ⟨"v1", "u1",
        some "https://b1.s3.us-east-1.amazonaws.com/landscape/tubely-upload-1.mp4", none⟩,
      true⟩ ∈ (handlerUploadVideo exampleConfig exampleUpload).trace ∧
    dbVideoToSignedVideo (fun bucket key _ => .ok (bucket ++ "," ++ key))
      ⟨"v1", "u1", some "https://b1.s3.us-east-1.amazonaws.com/landscape/tubely-upload-1.mp4",
        none⟩ = .panic "index out of range" :=
  ⟨by rw [exampleUpload_trace]; decide,
    stored_locator_not_decodable exampleConfig exampleUpload _ _ (by decide) (by decide)
      (by intro name hname
          have : name = "/tmp/tubely-upload-1.mp4" := by
            simpa [exampleUpload] using hname.symm
          rw [this]; decide)
      (by rw [exampleUpload_trace]; decide)⟩

/-- C3, as amended. A locator with a comma is split at every comma and the first two pieces
are used: the bucket passed to `generatePresignedURL` is the text before the first comma, the
key is the text between the first comma and the next one; it is all of the text after the
first comma exactly when that text has no further comma. -/
theorem dbVideoToSignedVideo_split
    (presignGetObject : String → String → ℕ → Except String String) (video : Video)
    (s : String) (hs : video.VideoURL = some s) (hc : ',' ∈ s.data) :
    dbVideoToSignedVideo presignGetObject video =
      (match generatePresignedURL presignGetObject (textBefore ',' s)
          (textBefore ',' (textAfter ',' s)) (timeSecond * 5) with
        | .error e => .err ("error generating presigned URL: " ++ e)
        | .ok presignedURL => .ok { video with VideoURL := some presignedURL }) ∧
    (',' ∉ (textAfter ',' s).data → textBefore ',' (textAfter ',' s) = textAfter ',' s) := by
  constructor
  · obtain ⟨rest, hrest⟩ := splitChars_second ',' s.data hc
    unfold dbVideoToSignedVideo
    rw [hs]
    simp [stringsSplit, hrest, textBefore, textAfter]
  · intro h
    unfold textBefore
    have : (textAfter ',' s).data.takeWhile (fun c => decide (c ≠ ',')) = (textAfter ',' s).data := by
      rw [List.takeWhile_eq_self_iff]
      intro c hcm
      simp only [ne_eq, decide_not, Bool.not_eq_true', decide_eq_false_iff_not]
      intro e
      exact h (e ▸ hcm)
    rw [this]

theorem dbVideoToSignedVideo_split_witness :
    ',' ∈ "b1,a/b/c".data ∧
      dbVideoToSignedVideo (fun bucket key _ => .ok (bucket ++ "|" ++ key))
        ⟨"v1", "u1", some "b1,a/b/c", none⟩ = .ok ⟨"v1", "u1", some "b1|a/b/c", none⟩ := by
  refine ⟨by decide, ?_⟩
  rw [(dbVideoToSignedVideo_split (fun bucket key _ => .ok (bucket ++ "|" ++ key))
    ⟨"v1", "u1", some "b1,a/b/c", none⟩ "b1,a/b/c" rfl (by decide)).1]
  decide

/-- C3, as stated, fails on a locator with two commas: the key passed on is `k1`, not the
whole text `k1,k2` after the first comma. -/
theorem dbVideoToSignedVideo_drops_after_second_comma :
    dbVideoToSignedVideo (fun _ key _ => .ok key) ⟨"v1", "u1", some "b,k1,k2", none⟩
        = .ok ⟨"v1", "u1", some "k1", none⟩ ∧
      textAfter ',' "b,k1,k2" = "k1,k2" := by
  decide

/-- C5. For every staged file path and every classification, the object key is the class
prefix, a slash and the base name of the staged file, the prefix being `landscape` for
`16:9`, `portrait` for `9:16` and `other` for every other classification; and the key
`handlerUploadVideo` uploads under is that function of the name `os.CreateTemp` returned and
of the classification `getVideoAspectRatio` returned, and of nothing else. -/
theorem uploaded_key (cfg : ApiConfig) (env : VideoEnv) (bucket key contentType : String)
    (ok : Bool)
    (h : ⟨.putObject bucket key contentType, ok⟩ ∈ (handlerUploadVideo cfg env).trace) :
    (∀ tempName aspectRatio : String,
      s3KeyOf tempName aspectRatio = classPrefix aspectRatio ++ "/" ++ filepathBase tempName) ∧
    ∃ tempName aspectRatio, env.createTemp = some tempName ∧
      getVideoAspectRatio env.probe = .ok aspectRatio ∧
      key = classPrefix aspectRatio ++ "/" ++ filepathBase tempName := by
  obtain ⟨name, ar, h1, h2, _, h4, _⟩ := putObject_event h
  exact ⟨s3KeyOf_eq, name, ar, h1, h2, by rw [h4, s3KeyOf_eq]⟩

theorem uploaded_key_witness :
    ⟨.putObject "b1" "landscape/tubely-upload-1.mp4" "video/mp4", true⟩ ∈
        (handlerUploadVideo exampleConfig exampleUpload).trace ∧
      ∃ tempName aspectRatio, exampleUpload.createTemp = some tempName ∧
        getVideoAspectRatio exampleUpload.probe = .ok aspectRatio ∧
        "landscape/tubely-upload-1.mp4" =
          classPrefix aspectRatio ++ "/" ++ filepathBase tempName :=
  ⟨by rw [exampleUpload_trace]; decide,
    (uploaded_key exampleConfig exampleUpload "b1" "landscape/tubely-upload-1.mp4" "video/mp4"
      true (by rw [exampleUpload_trace]; decide)).2⟩

/-! ## Classification of the first stream -/

/-- What the code computes, on exact quotients: for every width and every positive height up
to `2^44`, `16:9` when `-0.05 ≤ width/height - 16/9 < 0.05` (the lower end included),
otherwise `9:16` when `width/height` differs from `9/16` by less than `0.05`, and `other`
in every remaining case. -/
theorem getVideoAspectRatio_exact (width height : ℤ) (rest : List Stream)
    (hpos : 0 < height) (hbound : height ≤ 2 ^ 44) :
    getVideoAspectRatio (.decoded (⟨width, height⟩ :: rest)) = .ok
      (if -(5 / 100 : ℚ) ≤ (width : ℚ) / height - 16 / 9 ∧
          (width : ℚ) / height - 16 / 9 < 5 / 100 then "16:9"
       else if |(width : ℚ) / height - 9 / 16| < 5 / 100 then "9:16"
       else "other") := by
  have hq : (0 : ℚ) < height := by exact_mod_cast hpos
  have e1 : (311 * height ≤ 180 * width ∧ 180 * width < 329 * height) ↔
      (-(5 / 100 : ℚ) ≤ (width : ℚ) / height - 16 / 9 ∧
        (width : ℚ) / height - 16 / 9 < 5 / 100) := by
    have a1 : (311 * height ≤ 180 * width) ↔ ((311 : ℚ) / 180 ≤ (width : ℚ) / height) := by
      rw [le_div_iff₀ hq]
      constructor
      · intro h
        have : ((311 * height : ℤ) : ℚ) ≤ ((180 * width : ℤ) : ℚ) := by exact_mod_cast h
        push_cast at this; linarith
      · intro h
        have : ((311 * height : ℤ) : ℚ) ≤ ((180 * width : ℤ) : ℚ) := by push_cast; linarith
        exact_mod_cast this
    have a2 : (180 * width < 329 * height) ↔ ((width : ℚ) / height < 329 / 180) := by
      rw [div_lt_iff₀ hq]
      constructor
      · intro h
        have : ((180 * width : ℤ) : ℚ) < ((329 * height : ℤ) : ℚ) := by exact_mod_cast h
        push_cast at this; linarith
      · intro h
        have : ((180 * width : ℤ) : ℚ) < ((329 * height : ℤ) : ℚ) := by push_cast; linarith
        exact_mod_cast this
    rw [a1, a2]
    constructor
    · rintro ⟨h1, h2⟩; constructor <;> linarith
    · rintro ⟨h1, h2⟩; constructor <;> linarith
  have e2 : (41 * height < 80 * width ∧ 80 * width < 49 * height) ↔
      |(width : ℚ) / height - 9 / 16| < 5 / 100 := by
    have a1 : (41 * height < 80 * width) ↔ ((41 : ℚ) / 80 < (width : ℚ) / height) := by
      rw [lt_div_iff₀ hq]
      constructor
      · intro h
        have : ((41 * height : ℤ) : ℚ) < ((80 * width : ℤ) : ℚ) := by exact_mod_cast h
        push_cast at this; linarith
      · intro h
        have : ((41 * height : ℤ) : ℚ) < ((80 * width : ℤ) : ℚ) := by push_cast; linarith
        exact_mod_cast this
    have a2 : (80 * width < 49 * height) ↔ ((width : ℚ) / height < 49 / 80) := by
      rw [div_lt_iff₀ hq]
      constructor
      · intro h
        have : ((80 * width : ℤ) : ℚ) < ((49 * height : ℤ) : ℚ) := by exact_mod_cast h
        push_cast at this; linarith
      · intro h
        have : ((80 * width : ℤ) : ℚ) < ((49 * height : ℤ) : ℚ) := by push_cast; linarith
        exact_mod_cast this
    rw [a1, a2, abs_lt]
    constructor
    · rintro ⟨h1, h2⟩; constructor <;> linarith
    · rintro ⟨h1, h2⟩; constructor <;> linarith
  simp only [getVideoAspectRatio]
  rw [aspectRatioOf_bounded width height hpos hbound]
  simp only [e1, e2]

/-- C1, as amended. For every width and every positive height up to `2^44` reported for the
first stream, with a quotient other than `311/180`, `getVideoAspectRatio` returns without
error what the specification says: `16:9` when `width/height` differs from `16/9` by less
than `0.05`, otherwise `9:16` when it differs from `9/16` by less than `0.05`, and `other`
in every remaining case. -/
theorem getVideoAspectRatio_classification (width height : ℤ) (rest : List Stream)
    (hpos : 0 < height) (hbound : height ≤ 2 ^ 44)
    (hne : (width : ℚ) / height ≠ 311 / 180) :
    getVideoAspectRatio (.decoded (⟨width, height⟩ :: rest)) =
      .ok (specAspectRatio width height) := by
  rw [getVideoAspectRatio_exact width height rest hpos hbound]
  unfold specAspectRatio
  have e : (-(5 / 100 : ℚ) ≤ (width : ℚ) / height - 16 / 9 ∧
      (width : ℚ) / height - 16 / 9 < 5 / 100) ↔
      |(width : ℚ) / height - 16 / 9| < 5 / 100 := by
    rw [abs_lt]
    constructor
    · rintro ⟨h1, h2⟩
      refine ⟨lt_of_le_of_ne h1 ?_, h2⟩
      intro h3
      apply hne
      linarith
    · rintro ⟨h1, h2⟩
      exact ⟨h1.le, h2⟩
  simp only [e]

theorem getVideoAspectRatio_classification_witness :
    ((0 : ℤ) < 1080 ∧ (1080 : ℤ) ≤ 2 ^ 44 ∧ ((1920 : ℤ) : ℚ) / (1080 : ℤ) ≠ 311 / 180) ∧
      getVideoAspectRatio (.decoded [⟨1920, 1080⟩]) = .ok "16:9" ∧
      getVideoAspectRatio (.decoded [⟨1080, 1920⟩]) = .ok "9:16" ∧
      getVideoAspectRatio (.decoded [⟨1000, 1000⟩]) = .ok "other" := by
  refine ⟨⟨by norm_num, by norm_num, by norm_num⟩, ?_, ?_, ?_⟩
  · rw [getVideoAspectRatio_classification 1920 1080 [] (by norm_num) (by norm_num)
      (by norm_num)]
    unfold specAspectRatio
    norm_num [abs_lt]
  · rw [getVideoAspectRatio_classification 1080 1920 [] (by norm_num) (by norm_num)
      (by norm_num)]
    unfold specAspectRatio
    norm_num [abs_lt]
  · rw [getVideoAspectRatio_classification 1000 1000 [] (by norm_num) (by norm_num)
      (by norm_num)]
    unfold specAspectRatio
    norm_num [abs_lt]

/-- C1, as stated, fails at 311x180: the quotient differs from `16/9` by exactly `0.05`, not
by less, so the specification classifies it `other`; the code returns `16:9`, because the
`float64` value of `16/9 - 0.05` lies below the `float64` quotient `311/180`. -/
theorem getVideoAspectRatio_boundary_311_180 :
    getVideoAspectRatio (.decoded [⟨311, 180⟩]) = .ok "16:9" ∧
      specAspectRatio 311 180 = "other" := by
  constructor
  · simp only [getVideoAspectRatio]
    rw [aspectRatioOf_bounded _ _ (by norm_num) (by norm_num)]
    simp
  · unfold specAspectRatio
    norm_num [abs_lt]

/-- C10. A pair of positive integers classified `16:9` is classified `9:16` once swapped. -/
theorem rotation_of_landscape (width height : ℤ) (rest rest' : List Stream)
    (hw : 0 < width) (hh : 0 < height)
    (h : getVideoAspectRatio (.decoded (⟨width, height⟩ :: rest)) = .ok "16:9") :
    getVideoAspectRatio (.decoded (⟨height, width⟩ :: rest')) = .ok "9:16" := by
  simp only [getVideoAspectRatio, Except.ok.injEq] at h ⊢
  exact aspectRatioOf_swap width height hw hh h

theorem rotation_of_landscape_witness :
    ((0 : ℤ) < 1920 ∧ (0 : ℤ) < 1080 ∧
        getVideoAspectRatio (.decoded [⟨1920, 1080⟩]) = .ok "16:9") ∧
      getVideoAspectRatio (.decoded [⟨1080, 1920⟩]) = .ok "9:16" :=
  ⟨⟨by norm_num, by norm_num, aspect_1920_1080⟩,
    rotation_of_landscape 1920 1080 [] [] (by norm_num) (by norm_num) aspect_1920_1080⟩

/-! ## Runs of the handlers on the examples -/

theorem non_owner_rejection_witness :
    (exampleVideo.UserID ≠ "u2" ∧ maxMemory < exampleLargeThumbnailIntruder.filePartBytes) ∧
      ((handlerUploadVideo exampleConfig exampleIntruder).status = 401 ∧
        ∀ e ∈ (handlerUploadVideo exampleConfig exampleIntruder).trace,
          e.step.mutates = false) ∧
      (handlerUploadThumbnail exampleConfig (fun a b => a ++ "/" ++ b)
          exampleLargeThumbnailIntruder).status = 401 ∧
      ∃ before e after, (handlerUploadThumbnail exampleConfig (fun a b => a ++ "/" ++ b)
            exampleLargeThumbnailIntruder).trace =
          before ++ e :: after ∧
        e.step.mutates = true ∧ ⟨.ownerCheck, false⟩ ∈ after :=
  ⟨⟨by decide, by decide⟩,
    (non_owner_rejection exampleConfig (fun a b => a ++ "/" ++ b) exampleIntruder
      exampleLargeThumbnailIntruder "u2" exampleVideo (by decide)).1 rfl rfl (by decide),
    ((non_owner_rejection exampleConfig (fun a b => a ++ "/" ++ b) exampleIntruder
      exampleLargeThumbnailIntruder "u2" exampleVideo (by decide)).2 rfl rfl (by decide)).1,
    ((non_owner_rejection exampleConfig (fun a b => a ++ "/" ++ b) exampleIntruder
      exampleLargeThumbnailIntruder "u2" exampleVideo (by decide)).2 rfl rfl
        (by decide)).2.2 (by decide)⟩

theorem type_rejection_witness :
    (⟨.parseMediaType, true⟩ ∈ (handlerUploadVideo exampleConfig examplePng).trace ∧
        examplePng.parseMediaType ≠ some "video/mp4") ∧
      ((handlerUploadVideo exampleConfig examplePng).status = 400 ∧
        ∀ e ∈ (handlerUploadVideo exampleConfig examplePng).trace,
          e.step.afterTypeCheck = false) ∧
      (⟨.mediaTypeCheck, true⟩ ∈ (handlerUploadVideo exampleConfig exampleUpload).trace ∧
        ⟨.createTemp exampleUpload.createTemp, exampleUpload.createTemp.isSome⟩ ∈
          (handlerUploadVideo exampleConfig exampleUpload).trace) :=
  ⟨⟨by decide, by decide⟩,
    (type_rejection exampleConfig examplePng true (by decide)).1 (by decide),
    (type_rejection exampleConfig exampleUpload true
      (by rw [exampleUpload_trace]; decide)).2 rfl⟩

theorem temp_file_removed_witness :
    ⟨.createTemp (some "/tmp/tubely-upload-1.mp4"), true⟩ ∈
        (handlerUploadVideo exampleConfig exampleUpload).trace ∧
      "/tmp/tubely-upload-1.mp4" ∉
        filesAfter [] (handlerUploadVideo exampleConfig exampleUpload).trace :=
  ⟨by rw [exampleUpload_trace]; decide,
    (temp_file_removed exampleConfig exampleUpload "/tmp/tubely-upload-1.mp4" []
      (by rw [exampleUpload_trace]; decide)).1⟩

/-- C9, as amended. In both upload handlers the status is 400 exactly when an input step
(id, multipart parse, form field, media type) or the fetch of the record failed, 401 exactly
when an auth step (token, validation, ownership) failed, 500 exactly when a storage step or
the update of the record failed, and 200 exactly when no step failed; the thumbnail handler
never panics. -/
theorem status_mapping (cfg : ApiConfig) (join : String → String → String)
    (env : VideoEnv) (tenv : ThumbnailEnv) :
    StatusMapped (handlerUploadVideo cfg env) ∧
      StatusMapped (handlerUploadThumbnail cfg join tenv) ∧
      (handlerUploadThumbnail cfg join tenv).panic = none :=
  ⟨handlerUploadVideo_statusMapped cfg env, handlerUploadThumbnail_statusMapped cfg join tenv⟩

/-- C9, as stated, fails when the record store cannot fetch the video: the handler answers
400, not 500. -/
theorem fetch_failure_status_400 :
    ⟨.getVideo, false⟩ ∈ (handlerUploadVideo exampleConfig exampleFetchFailure).trace ∧
      (handlerUploadVideo exampleConfig exampleFetchFailure).status = 400 := by
  decide

end Tubely
